import Mathlib

/-!
# URL rewriter (`core/url_rewrite.go`)

A shallow embedding of the rule matching and templating engine of
`core/url_rewrite.go`, followed by theorems about it.

Modelling conventions.

* A Go `string` is a Lean `String`.  The four placeholder tokens are ASCII, so
  searching for them in the bytes of a well-formed UTF-8 string and searching
  for them in its sequence of characters find the same occurrences.
* A `*UrlRewriteRule` is an `Option UrlRewriteRule`; `none` is the nil pointer.
  Dereferencing it is a run-time panic, which `RewriteUrl` reports as `none`.
* Package `regexp` of the Go standard library is a parameter (`RegexpPkg`).
* `time.Now().Unix()` is a parameter `clock : Nat → Int`; `clock k` is the
  value returned by the `k`-th reading (counted from 0) made during one call.
-/

namespace core

/-! ## Library functions used by the source -/

/-- The part of Go package `regexp` that the rewriter uses: `regexp.Compile`,
which may fail (`none` stands for `err != nil`), and `(*Regexp).MatchString`. -/
structure RegexpPkg where
  Regexp : Type
  Compile : String → Option Regexp
  MatchString : Regexp → String → Bool

/-- Scanning loop of `strings.ReplaceAll` for a non-empty `old`: the first
argument counts the characters of a just replaced occurrence that are still to
be stepped over; at count `0` an occurrence of `old` starting here is replaced
by `new`, any other character is copied. -/
def replaceFrom (old new : List Char) : Nat → List Char → List Char
  | _, [] => []
  | skip + 1, _ :: cs => replaceFrom old new skip cs
  | 0, c :: cs =>
    if old.isPrefixOf (c :: cs) then new ++ replaceFrom old new (old.length - 1) cs
    else c :: replaceFrom old new 0 cs

/-- Go `strings.ReplaceAll(s, old, new)`: every non-overlapping occurrence of
`old` in `s`, found from left to right, is replaced by `new`.  An empty `old`
matches before every character and at the end. -/
def ReplaceAll (s old new : String) : String :=
  if old.data = [] then ⟨new.data ++ s.data.flatMap (fun c => c :: new.data)⟩
  else ⟨replaceFrom old.data new.data 0 s.data⟩

/-- Go `strings.Join(elems, sep)`. -/
def Join (elems : List String) (sep : String) : String :=
  match elems with
  | [] => ""
  | e :: es => es.foldl (fun b s => b ++ sep ++ s) e

/-- Go conversion `string(i)` of an integer `i`: the UTF-8 text of the code
point `i`, and U+FFFD when `i` is not a valid code point. -/
def runeString (i : Int) : String :=
  if 0 ≤ i ∧ (i < 0xD800 ∨ (0xDFFF < i ∧ i < 0x110000)) then
    String.singleton (Char.ofNat i.toNat)
  else String.singleton (Char.ofNat 0xFFFD)

/-! ## Data model (lines 9-31) -/

structure UrlRewriteQuery where
  Key : String
  Value : String
  deriving DecidableEq, Repr

structure UrlRewrite where
  Path : String
  QueryParams : List UrlRewriteQuery
  deriving DecidableEq, Repr

structure UrlRewriteTrigger where
  Domains : List String
  Paths : List String
  deriving DecidableEq, Repr

structure UrlRewriteRule where
  Trigger : UrlRewriteTrigger
  Rewrite : UrlRewrite
  deriving DecidableEq, Repr

structure UrlRewriter where
  rules : List (Option UrlRewriteRule)
  deriving DecidableEq, Repr

/-! ## Operations (lines 33-104) -/

/-- `NewUrlRewriter` (lines 33-37). -/
def NewUrlRewriter : UrlRewriter :=
  { rules := [] }

/-- `AddRule` (lines 40-42): `u.rules = append(u.rules, rule)`. -/
def UrlRewriter.AddRule (u : UrlRewriter) (rule : Option UrlRewriteRule) : UrlRewriter :=
  { rules := u.rules ++ [rule] }

/-- Lines 48-54: the loop over `rule.Trigger.Domains` that sets `domainMatch`. -/
def domainMatch (domains : List String) (domain : String) : Bool :=
  match domains with
  | [] => false
  | d :: ds => if d = domain then true else domainMatch ds domain

/-- Lines 61-71: the loop over `rule.Trigger.Paths` that sets `pathMatch`; a
pattern that does not compile is passed over by `continue`. -/
def pathMatch (regexp : RegexpPkg) (paths : List String) (path : String) : Bool :=
  match paths with
  | [] => false
  | p :: ps =>
    match regexp.Compile p with
    | none => pathMatch regexp ps path
    | some re => if regexp.MatchString re path then true else pathMatch regexp ps path

/-- Lines 87-90: the four successive replacements made in one value template;
`now` is the clock reading `time.Now().Unix()`. -/
def substitute (value sessionId originalPath : String) (now : Int) : String :=
  let value := ReplaceAll value "{session_id}" sessionId
  let value := ReplaceAll value "{original_path}" originalPath
  let value := ReplaceAll value "{timestamp}" (runeString now)
  let value := ReplaceAll value "{id}" sessionId
  value

/-- Lines 82-93: the loop over `rule.Rewrite.QueryParams`.  `k` is the number of
clock readings made so far and `queryParams` the slice built so far. -/
def buildQueryParams (clock : Nat → Int) (sessionId originalPath : String) :
    List UrlRewriteQuery → Nat → List String → List String
  | [], _, queryParams => queryParams
  | qp :: rest, k, queryParams =>
    let key := qp.Key
    let value := substitute qp.Value sessionId originalPath (clock k)
    buildQueryParams clock sessionId originalPath rest (k + 1)
      (queryParams ++ [key ++ "=" ++ value])

/-- Lines 78-98: the rewritten URL of a rule that matched. -/
def rewrittenUrl (clock : Nat → Int) (rule : UrlRewriteRule)
    (sessionId originalPath : String) : String :=
  let newPath := rule.Rewrite.Path
  let queryParams := buildQueryParams clock sessionId originalPath rule.Rewrite.QueryParams 0 []
  if queryParams.length > 0 then newPath ++ ("?" ++ Join queryParams "&") else newPath

/-- Lines 46-103: the loop over `u.rules`.  A nil rule pointer panics when
`rule.Trigger` is read. -/
def rewriteLoop (regexp : RegexpPkg) (clock : Nat → Int)
    (domain path sessionId originalPath : String) :
    List (Option UrlRewriteRule) → Option (String × Bool)
  | [] => some (path, false)
  | none :: _ => none
  | some rule :: rest =>
    if !domainMatch rule.Trigger.Domains domain then
      rewriteLoop regexp clock domain path sessionId originalPath rest
    else if !pathMatch regexp rule.Trigger.Paths path then
      rewriteLoop regexp clock domain path sessionId originalPath rest
    else some (rewrittenUrl clock rule sessionId originalPath, true)

/-- `RewriteUrl` (lines 45-104).  The result is `none` when the call panics. -/
def UrlRewriter.RewriteUrl (regexp : RegexpPkg) (clock : Nat → Int) (u : UrlRewriter)
    (domain path sessionId originalPath : String) : Option (String × Bool) :=
  rewriteLoop regexp clock domain path sessionId originalPath u.rules

/-- `GetOriginalPath` (lines 107-112).  The Go map is read as a partial function
from keys to values; a nil map reads as the empty map. -/
def UrlRewriter.GetOriginalPath (_u : UrlRewriter) (queryParams : String → Option String) :
    String × Bool :=
  match queryParams "redirect" with
  | some originalPath => (originalPath, true)
  | none => ("", false)

/-! ## Vocabulary of the specification -/

/-- The rewriter obtained from `NewUrlRewriter` by adding the rules of `rs`, in
order, with `AddRule`. -/
def rewriterOf (rs : List UrlRewriteRule) : UrlRewriter :=
  rs.foldl (fun u r => u.AddRule (some r)) NewUrlRewriter

/-- A rule matches a request: `domain` is one of its `trigger.domains` and at
least one of its `trigger.paths` compiles and matches `path`. -/
def Matches (regexp : RegexpPkg) (r : UrlRewriteRule) (domain path : String) : Prop :=
  domain ∈ r.Trigger.Domains ∧
    ∃ p ∈ r.Trigger.Paths, ∃ re, regexp.Compile p = some re ∧ regexp.MatchString re path = true

/-- Whether a pattern compiles and matches the path can be computed. -/
instance decidableCompilesAndMatches (regexp : RegexpPkg) (p path : String) :
    Decidable (∃ re, regexp.Compile p = some re ∧ regexp.MatchString re path = true) :=
  decidable_of_iff
    ((match regexp.Compile p with
      | none => false
      | some re => regexp.MatchString re path) = true)
    (by cases regexp.Compile p <;> simp)

/-- Whether a rule matches a request can be computed. -/
instance decidableMatches (regexp : RegexpPkg) (r : UrlRewriteRule) (domain path : String) :
    Decidable (Matches regexp r domain path) :=
  inferInstanceAs (Decidable (domain ∈ r.Trigger.Domains ∧
    ∃ p ∈ r.Trigger.Paths, ∃ re, regexp.Compile p = some re ∧ regexp.MatchString re path = true))

/-- A rule with the patterns that do not compile taken out of `trigger.paths`. -/
def dropInvalidPatterns (regexp : RegexpPkg) (r : UrlRewriteRule) : UrlRewriteRule :=
  { r with Trigger := { r.Trigger with
      Paths := r.Trigger.Paths.filter (fun p => (regexp.Compile p).isSome) } }

/-- The `key=value` pairs of a query string joined with `&`. -/
def joinedWithAmp : List String → String
  | [] => ""
  | [kv] => kv
  | kv :: rest => kv ++ "&" ++ joinedWithAmp rest

/-- The query string pairs of a rule, in the order of `query_params`: each key,
`=`, and the value after placeholder substitution (the `i`-th value uses the
`i`-th clock reading). -/
def queryPairs (clock : Nat → Int) (sessionId originalPath : String)
    (params : List UrlRewriteQuery) : List String :=
  params.enum.map
    (fun iq => iq.2.Key ++ "=" ++ substitute iq.2.Value sessionId originalPath (clock iq.1))

/-- One pass over a template that replaces each placeholder occurrence where it
stands: `{session_id}` and `{id}` by `sid`, `{original_path}` by `op`,
`{timestamp}` by `ts`.  The count works as in `replaceFrom`; the text put in is
not looked at again. -/
def expandFrom (sid op ts : List Char) : Nat → List Char → List Char
  | _, [] => []
  | skip + 1, _ :: cs => expandFrom sid op ts skip cs
  | 0, c :: cs =>
    if "{session_id}".data.isPrefixOf (c :: cs) then
      sid ++ expandFrom sid op ts ("{session_id}".length - 1) cs
    else if "{original_path}".data.isPrefixOf (c :: cs) then
      op ++ expandFrom sid op ts ("{original_path}".length - 1) cs
    else if "{timestamp}".data.isPrefixOf (c :: cs) then
      ts ++ expandFrom sid op ts ("{timestamp}".length - 1) cs
    else if "{id}".data.isPrefixOf (c :: cs) then
      sid ++ expandFrom sid op ts ("{id}".length - 1) cs
    else c :: expandFrom sid op ts 0 cs

/-- The simultaneous substitution of the placeholder occurrences of the original
template; the time string is the one the code produces for the reading `now`. -/
def substituteAtOnce (value sessionId originalPath : String) (now : Int) : String :=
  ⟨expandFrom sessionId.data originalPath.data (runeString now).data 0 value.data⟩

/-- Some placeholder starts at the head of the text. -/
def startsPlaceholder (cs : List Char) : Bool :=
  "{session_id}".data.isPrefixOf cs || "{original_path}".data.isPrefixOf cs ||
    "{timestamp}".data.isPrefixOf cs || "{id}".data.isPrefixOf cs

/-- Every opening brace of the text begins one of the four placeholders. -/
def wellBraced : List Char → Bool
  | [] => true
  | c :: cs => (c != '{' || startsPlaceholder (c :: cs)) && wellBraced cs

/-- A rule with every `{session_id}` of its value templates rewritten to `{id}`. -/
def aliasToId (r : UrlRewriteRule) : UrlRewriteRule :=
  { r with Rewrite := { r.Rewrite with
      QueryParams := r.Rewrite.QueryParams.map
        (fun q => { q with Value := ReplaceAll q.Value "{session_id}" "{id}" }) } }

/-- The four placeholders. -/
inductive Placeholder where
  | session_id
  | original_path
  | timestamp
  | id
  deriving DecidableEq, Repr

/-- The text of a placeholder after its opening brace. -/
def Placeholder.body : Placeholder → List Char
  | .session_id => ['s', 'e', 's', 's', 'i', 'o', 'n', '_', 'i', 'd', '}']
  | .original_path => ['o', 'r', 'i', 'g', 'i', 'n', 'a', 'l', '_', 'p', 'a', 't', 'h', '}']
  | .timestamp => ['t', 'i', 'm', 'e', 's', 't', 'a', 'm', 'p', '}']
  | .id => ['i', 'd', '}']

/-- The text of a placeholder. -/
def Placeholder.text (k : Placeholder) : List Char := '{' :: k.body

/-- A template cut into pieces: single characters and placeholders. -/
inductive Piece where
  | lit (c : Char)
  | tok (k : Placeholder)
  deriving DecidableEq, Repr

/-- The text of a list of pieces when placeholder `k` stands for `f k`. -/
def expand (f : Placeholder → List Char) : List Piece → List Char
  | [] => []
  | .lit c :: ps => c :: expand f ps
  | .tok k :: ps => f k ++ expand f ps

/-- No character piece is an opening brace. -/
def Plain (ps : List Piece) : Prop := ∀ c, Piece.lit c ∈ ps → c ≠ '{'

/-- The piece with `{session_id}` rewritten to `{id}`. -/
def Piece.toId : Piece → Piece
  | .tok .session_id => .tok .id
  | p => p

/-- What each placeholder stands for after substitution. -/
def finalText (sid op ts : List Char) : Placeholder → List Char
  | .session_id => sid
  | .original_path => op
  | .timestamp => ts
  | .id => sid

/-! ## A concrete regexp package for evaluation -/

/-- Characters with a special meaning in the pattern syntax of Go `regexp`. -/
def metaChars : List Char := "\\.+*?()|[]^$".data ++ [Char.ofNat 123, Char.ofNat 125]

/-- A compiled pattern of `literalRegexp`: the literal text and whether it is
anchored at the start and at the end. -/
structure LiteralPattern where
  atStart : Bool
  text : List Char
  atEnd : Bool
  deriving DecidableEq, Repr

/-- Compile a pattern `^text$`, `^text`, `text$` or `text` whose `text` has no
special character; anything else is refused. -/
def compileLiteral (p : String) : Option LiteralPattern :=
  let cs := p.data
  let atStart := cs.head? == some '^'
  let cs := if atStart then cs.drop 1 else cs
  let atEnd := cs.getLast? == some '$'
  let cs := if atEnd then cs.dropLast else cs
  if cs.any (fun c => metaChars.contains c) then none else some ⟨atStart, cs, atEnd⟩

/-- Go `MatchString` on a pattern of the literal fragment: search, unless
anchored. -/
def matchLiteral (re : LiteralPattern) (s : String) : Bool :=
  match re.atStart, re.atEnd with
  | true, true => re.text == s.data
  | true, false => re.text.isPrefixOf s.data
  | false, true => re.text.isSuffixOf s.data
  | false, false => s.data.tails.any (fun t => re.text.isPrefixOf t)

/-- A small regexp package.  It agrees with Go `regexp` on the anchored literal
patterns it accepts and on the patterns `(` and `[`, which both refuse; it
refuses the other patterns with special characters, valid or not. -/
@[reducible]
def literalRegexp : RegexpPkg :=
  { Regexp := LiteralPattern, Compile := compileLiteral, MatchString := matchLiteral }

/-! ## Example rules -/

/-- The rule of example scenario 1 of the specification. -/
def oldToNew : UrlRewriteRule :=
  { Trigger := { Domains := ["example.com"], Paths := ["^/old$"] },
    Rewrite := { Path := "/new", QueryParams := [{ Key := "from", Value := "{original_path}" }] } }

/-- A second rule for the same requests, with another target. -/
def oldToOther : UrlRewriteRule :=
  { Trigger := { Domains := ["example.org", "example.com"], Paths := ["/old"] },
    Rewrite := { Path := "/other", QueryParams := [] } }

/-- A rule for another domain and path. -/
def loginRule : UrlRewriteRule :=
  { Trigger := { Domains := ["login.example.com"], Paths := ["^/signin"] },
    Rewrite := { Path := "/auth", QueryParams := [{ Key := "sid", Value := "{session_id}" }] } }

/-- A rule whose patterns are all refused by the compiler. -/
def brokenRule : UrlRewriteRule :=
  { Trigger := { Domains := ["example.com"], Paths := ["(", "["] },
    Rewrite := { Path := "/broken", QueryParams := [] } }

/-- A rule with two refused patterns before a good one. -/
def mixedRule : UrlRewriteRule :=
  { Trigger := { Domains := ["example.com"], Paths := ["(", "[", "^/old$"] },
    Rewrite := { Path := "/mixed", QueryParams := [{ Key := "sid", Value := "{session_id}" }] } }

/-- A rule without any path pattern. -/
def noPathRule : UrlRewriteRule :=
  { Trigger := { Domains := ["example.com"], Paths := [] },
    Rewrite := { Path := "/nowhere", QueryParams := [] } }

/-- A rule that passes the time of the request on. -/
def stampRule : UrlRewriteRule :=
  { Trigger := { Domains := ["example.com"], Paths := ["^/old$"] },
    Rewrite := { Path := "/new", QueryParams := [{ Key := "ts", Value := "{timestamp}" }] } }

/-- The rule of example scenario 4 of the specification. -/
def aliasRule : UrlRewriteRule :=
  { Trigger := { Domains := ["example.com"], Paths := ["^/old$"] },
    Rewrite := { Path := "/new", QueryParams :=
      [{ Key := "sid", Value := "{session_id}" }, { Key := "legacy", Value := "{id}" }] } }

/-- A rule with one parameter `v` whose value template is `value`. -/
def templateRule (value : String) : UrlRewriteRule :=
  { Trigger := { Domains := ["example.com"], Paths := ["^/old$"] },
    Rewrite := { Path := "/new", QueryParams := [{ Key := "v", Value := value }] } }

/-- A rule without any domain, whose patterns match every path. -/
def noDomainRule : UrlRewriteRule :=
  { Trigger := { Domains := [], Paths := ["", "/old"] },
    Rewrite := { Path := "/anywhere", QueryParams := [] } }

/-- The map `{redirect: /foo, other: x}` of example scenario 5. -/
def redirectQuery : String → Option String :=
  fun k => if k = "redirect" then some "/foo" else if k = "other" then some "x" else none

/-- The map `{other: x}` of example scenario 5. -/
def otherQuery : String → Option String :=
  fun k => if k = "other" then some "x" else none

/-- A clock that stands at 1700000000 seconds. -/
def fixedClock : Nat → Int := fun _ => 1700000000

/-! ## Lemmas on the rule loop -/

theorem rewriterOf_rules (rs : List UrlRewriteRule) : (rewriterOf rs).rules = rs.map some := by
  have h : ∀ (l : List UrlRewriteRule) (u : UrlRewriter),
      (l.foldl (fun u r => u.AddRule (some r)) u).rules = u.rules ++ l.map some := by
    intro l
    induction l with
    | nil => intro u; simp
    | cons r l ih =>
      intro u
      rw [List.foldl_cons, ih]
      simp [UrlRewriter.AddRule]
  simpa [rewriterOf, NewUrlRewriter] using h rs NewUrlRewriter

theorem domainMatch_iff (domains : List String) (domain : String) :
    domainMatch domains domain = true ↔ domain ∈ domains := by
  induction domains with
  | nil => simp [domainMatch]
  | cons d ds ih =>
    unfold domainMatch
    by_cases h : d = domain
    · simp [h]
    · simp [h, ih, Ne.symm h]

theorem pathMatch_iff (regexp : RegexpPkg) (paths : List String) (path : String) :
    pathMatch regexp paths path = true ↔
      ∃ p ∈ paths, ∃ re, regexp.Compile p = some re ∧ regexp.MatchString re path = true := by
  induction paths with
  | nil => simp [pathMatch]
  | cons p ps ih =>
    unfold pathMatch
    cases hc : regexp.Compile p with
    | none => simp [hc, ih]
    | some re =>
      by_cases hm : regexp.MatchString re path = true
      · simp [hc, hm]
      · simp [hc, hm, ih]

theorem matches_iff (regexp : RegexpPkg) (r : UrlRewriteRule) (domain path : String) :
    Matches regexp r domain path ↔
      (domainMatch r.Trigger.Domains domain = true ∧
        pathMatch regexp r.Trigger.Paths path = true) := by
  rw [domainMatch_iff, pathMatch_iff]; rfl

theorem rewriteLoop_skip (regexp : RegexpPkg) (clock : Nat → Int)
    (domain path sessionId originalPath : String) (r : UrlRewriteRule)
    (rest : List (Option UrlRewriteRule)) (h : ¬ Matches regexp r domain path) :
    rewriteLoop regexp clock domain path sessionId originalPath (some r :: rest) =
      rewriteLoop regexp clock domain path sessionId originalPath rest := by
  rw [matches_iff] at h
  by_cases hd : domainMatch r.Trigger.Domains domain = true
  · have hp : pathMatch regexp r.Trigger.Paths path = false := by
      cases hq : pathMatch regexp r.Trigger.Paths path with
      | false => rfl
      | true => exact absurd ⟨hd, hq⟩ h
    simp [rewriteLoop, hd, hp]
  · simp [rewriteLoop, hd]

theorem rewriteLoop_hit (regexp : RegexpPkg) (clock : Nat → Int)
    (domain path sessionId originalPath : String) (r : UrlRewriteRule)
    (rest : List (Option UrlRewriteRule)) (h : Matches regexp r domain path) :
    rewriteLoop regexp clock domain path sessionId originalPath (some r :: rest) =
      some (rewrittenUrl clock r sessionId originalPath, true) := by
  rw [matches_iff] at h
  simp [rewriteLoop, h.1, h.2]

theorem rewriteLoop_skip_all (regexp : RegexpPkg) (clock : Nat → Int)
    (domain path sessionId originalPath : String) (pre : List UrlRewriteRule)
    (rest : List (Option UrlRewriteRule))
    (h : ∀ r ∈ pre, ¬ Matches regexp r domain path) :
    rewriteLoop regexp clock domain path sessionId originalPath (pre.map some ++ rest) =
      rewriteLoop regexp clock domain path sessionId originalPath rest := by
  induction pre with
  | nil => rfl
  | cons r pre ih =>
    have hr := h r (List.mem_cons_self _ _)
    have hpre : ∀ r' ∈ pre, ¬ Matches regexp r' domain path :=
      fun r' hr' => h r' (List.mem_cons_of_mem _ hr')
    simpa [rewriteLoop_skip regexp clock domain path sessionId originalPath r _ hr] using ih hpre

/-- The rule loop over rules added with `AddRule`: the prefix of rules that do
not match is passed over and the first matching rule gives the result. -/
theorem rewriteUrl_first (regexp : RegexpPkg) (clock : Nat → Int)
    (domain path sessionId originalPath : String) (pre : List UrlRewriteRule)
    (r : UrlRewriteRule) (post : List UrlRewriteRule)
    (hpre : ∀ r' ∈ pre, ¬ Matches regexp r' domain path)
    (hr : Matches regexp r domain path) :
    (rewriterOf (pre ++ r :: post)).RewriteUrl regexp clock domain path sessionId originalPath =
      some (rewrittenUrl clock r sessionId originalPath, true) := by
  unfold UrlRewriter.RewriteUrl
  rw [rewriterOf_rules, List.map_append, List.map_cons,
    rewriteLoop_skip_all regexp clock domain path sessionId originalPath pre _ hpre,
    rewriteLoop_hit regexp clock domain path sessionId originalPath r _ hr]

/-- The rule loop over rules none of which matches returns the request path. -/
theorem rewriteUrl_none (regexp : RegexpPkg) (clock : Nat → Int)
    (domain path sessionId originalPath : String) (rs : List UrlRewriteRule)
    (h : ∀ r ∈ rs, ¬ Matches regexp r domain path) :
    (rewriterOf rs).RewriteUrl regexp clock domain path sessionId originalPath =
      some (path, false) := by
  unfold UrlRewriter.RewriteUrl
  rw [rewriterOf_rules]
  have := rewriteLoop_skip_all regexp clock domain path sessionId originalPath rs [] h
  simpa [rewriteLoop] using this

/-- A list with a matching rule splits at its first matching rule. -/
theorem exists_first_match (regexp : RegexpPkg) (domain path : String)
    (rs : List UrlRewriteRule) (h : ∃ r ∈ rs, Matches regexp r domain path) :
    ∃ pre r post, rs = pre ++ r :: post ∧ (∀ r' ∈ pre, ¬ Matches regexp r' domain path) ∧
      Matches regexp r domain path := by
  induction rs with
  | nil => simp at h
  | cons a rs ih =>
    by_cases ha : Matches regexp a domain path
    · exact ⟨[], a, rs, rfl, by simp, ha⟩
    · obtain ⟨r, hr, hm⟩ := h
      have hr' : r ∈ rs := by
        rcases List.mem_cons.mp hr with h1 | h1
        · exact absurd (h1 ▸ hm) ha
        · exact h1
      obtain ⟨pre, r0, post, e, hpre, hm0⟩ := ih ⟨r, hr', hm⟩
      refine ⟨a :: pre, r0, post, by simp [e], ?_, hm0⟩
      intro r' h'
      rcases List.mem_cons.mp h' with h1 | h1
      · exact h1 ▸ ha
      · exact hpre r' h1

/-- A rule that does not match can be taken out of the list. -/
theorem rewriteLoop_remove (regexp : RegexpPkg) (clock : Nat → Int)
    (domain path sessionId originalPath : String) (R : UrlRewriteRule)
    (h : ¬ Matches regexp R domain path) (l rest : List (Option UrlRewriteRule)) :
    rewriteLoop regexp clock domain path sessionId originalPath (l ++ some R :: rest) =
      rewriteLoop regexp clock domain path sessionId originalPath (l ++ rest) := by
  induction l with
  | nil => exact rewriteLoop_skip regexp clock domain path sessionId originalPath R rest h
  | cons a l ih =>
    cases a with
    | none => simp [rewriteLoop]
    | some a => rw [List.cons_append, List.cons_append, rewriteLoop, rewriteLoop, ih]

theorem rewriteUrl_remove (regexp : RegexpPkg) (clock : Nat → Int)
    (domain path sessionId originalPath : String) (R : UrlRewriteRule)
    (h : ¬ Matches regexp R domain path) (pre post : List UrlRewriteRule) :
    (rewriterOf (pre ++ R :: post)).RewriteUrl regexp clock domain path sessionId originalPath =
      (rewriterOf (pre ++ post)).RewriteUrl regexp clock domain path sessionId originalPath := by
  unfold UrlRewriter.RewriteUrl
  rw [rewriterOf_rules, rewriterOf_rules, List.map_append, List.map_append, List.map_cons]
  exact rewriteLoop_remove regexp clock domain path sessionId originalPath R h _ _

theorem pathMatch_filter (regexp : RegexpPkg) (paths : List String) (path : String) :
    pathMatch regexp (paths.filter (fun p => (regexp.Compile p).isSome)) path =
      pathMatch regexp paths path := by
  induction paths with
  | nil => rfl
  | cons p ps ih =>
    cases hc : regexp.Compile p with
    | none => simp [List.filter, hc, pathMatch, ih]
    | some re => simp [List.filter, hc, pathMatch, ih]

theorem rewriteLoop_dropInvalid (regexp : RegexpPkg) (clock : Nat → Int)
    (domain path sessionId originalPath : String) (rs : List UrlRewriteRule) :
    rewriteLoop regexp clock domain path sessionId originalPath
        ((rs.map (dropInvalidPatterns regexp)).map some) =
      rewriteLoop regexp clock domain path sessionId originalPath (rs.map some) := by
  induction rs with
  | nil => rfl
  | cons r rs ih =>
    simp only [List.map_cons, rewriteLoop, ih]
    simp [dropInvalidPatterns, pathMatch_filter, rewrittenUrl]

/-! ## Claims on rule selection -/

/-- C1: first match wins.  If some rule of the list matches the request, the
list splits at its first matching rule (a rule `r` that matches, after rules
none of which matches); and at such a split `RewriteUrl` returns `(u, true)`
with `u` the URL rewritten from `r`, which is also the result of the rewriter
that holds `r` alone.  In particular, for two matching rules `R1`, added first,
and `R2`, the result is that of `R1` alone. -/
theorem RewriteUrl_first_match_wins (regexp : RegexpPkg) (clock : Nat → Int)
    (rs : List UrlRewriteRule) (domain path sessionId originalPath : String)
    (h : ∃ r ∈ rs, Matches regexp r domain path) :
    (∃ pre r post, rs = pre ++ r :: post ∧
      (∀ r' ∈ pre, ¬ Matches regexp r' domain path) ∧ Matches regexp r domain path) ∧
    (∀ pre r post, rs = pre ++ r :: post →
      (∀ r' ∈ pre, ¬ Matches regexp r' domain path) → Matches regexp r domain path →
      (rewriterOf rs).RewriteUrl regexp clock domain path sessionId originalPath =
        some (rewrittenUrl clock r sessionId originalPath, true) ∧
      (rewriterOf rs).RewriteUrl regexp clock domain path sessionId originalPath =
        (rewriterOf [r]).RewriteUrl regexp clock domain path sessionId originalPath) ∧
    (∀ R1 R2 : UrlRewriteRule, Matches regexp R1 domain path → Matches regexp R2 domain path →
      ((NewUrlRewriter.AddRule (some R1)).AddRule (some R2)).RewriteUrl regexp clock
          domain path sessionId originalPath =
        (NewUrlRewriter.AddRule (some R1)).RewriteUrl regexp clock
          domain path sessionId originalPath) := by
  refine ⟨exists_first_match regexp domain path rs h, ?_, ?_⟩
  · intro pre r post e hpre hr
    have e1 := rewriteUrl_first regexp clock domain path sessionId originalPath pre r post hpre hr
    have e2 := rewriteUrl_first regexp clock domain path sessionId originalPath [] r []
      (by simp) hr
    rw [List.nil_append] at e2
    rw [e, e1, e2]
    exact ⟨rfl, rfl⟩
  · intro R1 R2 h1 _
    have e1 := rewriteUrl_first regexp clock domain path sessionId originalPath [] R1 [R2]
      (by simp) h1
    have e2 := rewriteUrl_first regexp clock domain path sessionId originalPath [] R1 []
      (by simp) h1
    simp only [rewriterOf, List.nil_append, List.foldl_cons, List.foldl_nil] at e1 e2
    rw [e1, e2]

/-- C1 at the rules `loginRule, oldToNew, oldToOther` and the request
`example.com`, `/old`: the first matching rule is `oldToNew`. -/
theorem RewriteUrl_first_match_wins_witness :
    (∃ r ∈ [loginRule, oldToNew, oldToOther], Matches literalRegexp r "example.com" "/old") ∧
    (rewriterOf [loginRule, oldToNew, oldToOther]).RewriteUrl literalRegexp fixedClock
        "example.com" "/old" "sess1" "/old" =
      some (rewrittenUrl fixedClock oldToNew "sess1" "/old", true) ∧
    (rewriterOf [loginRule, oldToNew, oldToOther]).RewriteUrl literalRegexp fixedClock
        "example.com" "/old" "sess1" "/old" =
      (rewriterOf [oldToNew]).RewriteUrl literalRegexp fixedClock
        "example.com" "/old" "sess1" "/old" ∧
    ((NewUrlRewriter.AddRule (some oldToNew)).AddRule (some oldToOther)).RewriteUrl
        literalRegexp fixedClock "example.com" "/old" "sess1" "/old" =
      (NewUrlRewriter.AddRule (some oldToNew)).RewriteUrl literalRegexp fixedClock
        "example.com" "/old" "sess1" "/old" :=
  have h := RewriteUrl_first_match_wins literalRegexp fixedClock
    [loginRule, oldToNew, oldToOther] "example.com" "/old" "sess1" "/old" (by decide)
  have h2 := h.2.1 [loginRule] oldToNew [oldToOther] rfl (by decide) (by decide)
  ⟨by decide, h2.1, h2.2, h.2.2 oldToNew oldToOther (by decide) (by decide)⟩

/-- C2: no match returns the input unchanged.  If no rule of the list (which may
be empty) matches the request, `RewriteUrl` returns `(path, false)`; so does the
rewriter without rules. -/
theorem RewriteUrl_no_match (regexp : RegexpPkg) (clock : Nat → Int)
    (rs : List UrlRewriteRule) (domain path sessionId originalPath : String)
    (h : ∀ r ∈ rs, ¬ (domain ∈ r.Trigger.Domains ∧ ∃ p ∈ r.Trigger.Paths, ∃ re,
      regexp.Compile p = some re ∧ regexp.MatchString re path = true)) :
    (rewriterOf rs).RewriteUrl regexp clock domain path sessionId originalPath =
      some (path, false) ∧
    NewUrlRewriter.RewriteUrl regexp clock domain path sessionId originalPath =
      some (path, false) :=
  ⟨rewriteUrl_none regexp clock domain path sessionId originalPath rs h, rfl⟩

/-- C2 at example scenario 2: the path `/other` matches no pattern. -/
theorem RewriteUrl_no_match_witness :
    (∀ r ∈ [oldToNew, loginRule], ¬ (("example.com" : String) ∈ r.Trigger.Domains ∧
      ∃ p ∈ r.Trigger.Paths, ∃ re,
        literalRegexp.Compile p = some re ∧ literalRegexp.MatchString re "/other" = true)) ∧
    (rewriterOf [oldToNew, loginRule]).RewriteUrl literalRegexp fixedClock
        "example.com" "/other" "sess1" "/other" = some ("/other", false) ∧
    NewUrlRewriter.RewriteUrl literalRegexp fixedClock
        "example.com" "/other" "sess1" "/other" = some ("/other", false) :=
  have h : ∀ r ∈ [oldToNew, loginRule], ¬ Matches literalRegexp r "example.com" "/other" := by
    decide
  ⟨h, RewriteUrl_no_match literalRegexp fixedClock [oldToNew, loginRule]
    "example.com" "/other" "sess1" "/other" h⟩

/-- C3: domain filtering is exact string equality.  A rule `R` none of whose
`trigger.domains` equals the request domain never gives the result: the result
is the same with `R` taken out of the list; and a rewriter that holds only such
rules returns `(path, false)`. -/
theorem RewriteUrl_domain_exact (regexp : RegexpPkg) (clock : Nat → Int)
    (pre post rs : List UrlRewriteRule) (R : UrlRewriteRule)
    (domain path sessionId originalPath : String)
    (hR : ∀ d ∈ R.Trigger.Domains, d ≠ domain)
    (hrs : ∀ r ∈ rs, ∀ d ∈ r.Trigger.Domains, d ≠ domain) :
    (rewriterOf (pre ++ R :: post)).RewriteUrl regexp clock domain path sessionId originalPath =
      (rewriterOf (pre ++ post)).RewriteUrl regexp clock domain path sessionId originalPath ∧
    (rewriterOf rs).RewriteUrl regexp clock domain path sessionId originalPath =
      some (path, false) := by
  constructor
  · apply rewriteUrl_remove
    intro hm
    exact hR domain hm.1 rfl
  · apply rewriteUrl_none
    intro r hr hm
    exact hrs r hr domain hm.1 rfl

/-- C3 at the domains `xample.com`, a suffix of `example.com`, and
`Example.com`, a case variant of it. -/
theorem RewriteUrl_domain_exact_witness :
    (∀ d ∈ oldToNew.Trigger.Domains, d ≠ "xample.com") ∧
    (∀ r ∈ [oldToNew, oldToOther, loginRule], ∀ d ∈ r.Trigger.Domains, d ≠ "xample.com") ∧
    (∀ d ∈ oldToNew.Trigger.Domains, d ≠ "Example.com") ∧
    (∀ r ∈ [oldToNew, oldToOther, loginRule], ∀ d ∈ r.Trigger.Domains, d ≠ "Example.com") ∧
    ((rewriterOf ([loginRule] ++ oldToNew :: [oldToOther])).RewriteUrl literalRegexp fixedClock
        "xample.com" "/old" "sess1" "/old" =
      (rewriterOf ([loginRule] ++ [oldToOther])).RewriteUrl literalRegexp fixedClock
        "xample.com" "/old" "sess1" "/old" ∧
    (rewriterOf [oldToNew, oldToOther, loginRule]).RewriteUrl literalRegexp fixedClock
        "xample.com" "/old" "sess1" "/old" = some ("/old", false)) ∧
    ((rewriterOf ([loginRule] ++ oldToNew :: [oldToOther])).RewriteUrl literalRegexp fixedClock
        "Example.com" "/old" "sess1" "/old" =
      (rewriterOf ([loginRule] ++ [oldToOther])).RewriteUrl literalRegexp fixedClock
        "Example.com" "/old" "sess1" "/old" ∧
    (rewriterOf [oldToNew, oldToOther, loginRule]).RewriteUrl literalRegexp fixedClock
        "Example.com" "/old" "sess1" "/old" = some ("/old", false)) :=
  ⟨by decide, by decide, by decide, by decide,
    RewriteUrl_domain_exact literalRegexp fixedClock [loginRule] [oldToOther]
      [oldToNew, oldToOther, loginRule] oldToNew "xample.com" "/old" "sess1" "/old"
      (by decide) (by decide),
    RewriteUrl_domain_exact literalRegexp fixedClock [loginRule] [oldToOther]
      [oldToNew, oldToOther, loginRule] oldToNew "Example.com" "/old" "sess1" "/old"
      (by decide) (by decide)⟩

/-- C4: a rule with no usable path pattern never matches.  A rule `R` whose
`trigger.paths` is empty, or whose every pattern fails to compile, is not
matched: the result is the same with `R` taken out of the list; and a rewriter
that holds only such rules returns `(path, false)`. -/
theorem RewriteUrl_no_usable_pattern (regexp : RegexpPkg) (clock : Nat → Int)
    (pre post rs : List UrlRewriteRule) (R : UrlRewriteRule)
    (domain path sessionId originalPath : String)
    (hR : R.Trigger.Paths = [] ∨ ∀ p ∈ R.Trigger.Paths, regexp.Compile p = none)
    (hrs : ∀ r ∈ rs, r.Trigger.Paths = [] ∨ ∀ p ∈ r.Trigger.Paths, regexp.Compile p = none) :
    (rewriterOf (pre ++ R :: post)).RewriteUrl regexp clock domain path sessionId originalPath =
      (rewriterOf (pre ++ post)).RewriteUrl regexp clock domain path sessionId originalPath ∧
    (rewriterOf rs).RewriteUrl regexp clock domain path sessionId originalPath =
      some (path, false) := by
  have key : ∀ r : UrlRewriteRule,
      (r.Trigger.Paths = [] ∨ ∀ p ∈ r.Trigger.Paths, regexp.Compile p = none) →
      ¬ Matches regexp r domain path := by
    intro r hr hm
    obtain ⟨_, p, hp, re, hc, _⟩ := hm
    rcases hr with h0 | hall
    · rw [h0] at hp; exact absurd hp (List.not_mem_nil p)
    · rw [hall p hp] at hc; exact Option.noConfusion hc
  exact ⟨rewriteUrl_remove regexp clock domain path sessionId originalPath R (key R hR) pre post,
    rewriteUrl_none regexp clock domain path sessionId originalPath rs
      (fun r hr => key r (hrs r hr))⟩

/-- C4 at `brokenRule`, whose patterns `(` and `[` do not compile, and
`noPathRule`, which has no pattern. -/
theorem RewriteUrl_no_usable_pattern_witness :
    (brokenRule.Trigger.Paths = [] ∨
      ∀ p ∈ brokenRule.Trigger.Paths, literalRegexp.Compile p = none) ∧
    (∀ r ∈ [noPathRule, brokenRule], r.Trigger.Paths = [] ∨
      ∀ p ∈ r.Trigger.Paths, literalRegexp.Compile p = none) ∧
    ((rewriterOf ([loginRule] ++ brokenRule :: [oldToNew])).RewriteUrl literalRegexp fixedClock
        "example.com" "/old" "sess1" "/old" =
      (rewriterOf ([loginRule] ++ [oldToNew])).RewriteUrl literalRegexp fixedClock
        "example.com" "/old" "sess1" "/old" ∧
    (rewriterOf [noPathRule, brokenRule]).RewriteUrl literalRegexp fixedClock
        "example.com" "/old" "sess1" "/old" = some ("/old", false)) :=
  ⟨by decide, by decide,
    RewriteUrl_no_usable_pattern literalRegexp fixedClock [loginRule] [oldToNew]
      [noPathRule, brokenRule] brokenRule "example.com" "/old" "sess1" "/old"
      (by decide) (by decide)⟩

/-- C5: invalid patterns are skipped, not fatal.  A rule whose `trigger.domains`
contains the domain and whose `trigger.paths` holds, after any number of
patterns that fail to compile and anywhere later in the list, a pattern that
compiles and matches the path, is matched: when no earlier rule matches,
`RewriteUrl` returns `(u, true)` with `u` rewritten from that rule.  The leading
patterns that fail to compile do not change the path test, and for every rule
list the result is the same as with the patterns that fail to compile removed
from every rule. -/
theorem RewriteUrl_invalid_patterns_skipped (regexp : RegexpPkg) (clock : Nat → Int)
    (pre post : List UrlRewriteRule) (r : UrlRewriteRule)
    (bad mid later : List String) (good : String) (re : regexp.Regexp)
    (domain path sessionId originalPath : String)
    (hd : domain ∈ r.Trigger.Domains)
    (hp : r.Trigger.Paths = bad ++ (mid ++ good :: later))
    (hbad : ∀ p ∈ bad, regexp.Compile p = none)
    (hc : regexp.Compile good = some re) (hm : regexp.MatchString re path = true)
    (hpre : ∀ r' ∈ pre, ¬ Matches regexp r' domain path) :
    (rewriterOf (pre ++ r :: post)).RewriteUrl regexp clock domain path sessionId originalPath =
      some (rewrittenUrl clock r sessionId originalPath, true) ∧
    pathMatch regexp (bad ++ (mid ++ good :: later)) path =
      pathMatch regexp (mid ++ good :: later) path ∧
    ∀ rs : List UrlRewriteRule,
      (rewriterOf rs).RewriteUrl regexp clock domain path sessionId originalPath =
        (rewriterOf (rs.map (dropInvalidPatterns regexp))).RewriteUrl regexp clock
          domain path sessionId originalPath := by
  refine ⟨?_, ?_, ?_⟩
  · apply rewriteUrl_first regexp clock domain path sessionId originalPath pre r post hpre
    exact ⟨hd, good, by simp [hp], re, hc, hm⟩
  · clear hp
    induction bad with
    | nil => rfl
    | cons b bad ih =>
      have hb : regexp.Compile b = none := hbad b (List.mem_cons_self _ _)
      rw [List.cons_append, pathMatch]
      simp only [hb]
      exact ih (fun p h => hbad p (List.mem_cons_of_mem _ h))
  · intro rs
    unfold UrlRewriter.RewriteUrl
    rw [rewriterOf_rules, rewriterOf_rules, rewriteLoop_dropInvalid]

/-- C5 at `mixedRule`, whose patterns are `(`, `[` and `^/old$`. -/
theorem RewriteUrl_invalid_patterns_skipped_witness :
    ("example.com" : String) ∈ mixedRule.Trigger.Domains ∧
    mixedRule.Trigger.Paths = ["(", "["] ++ ([] ++ "^/old$" :: []) ∧
    (∀ p ∈ ["(", "["], literalRegexp.Compile p = none) ∧
    literalRegexp.Compile "^/old$" = some ⟨true, "/old".data, true⟩ ∧
    literalRegexp.MatchString ⟨true, "/old".data, true⟩ "/old" = true ∧
    (∀ r' ∈ [loginRule], ¬ Matches literalRegexp r' "example.com" "/old") ∧
    ((rewriterOf ([loginRule] ++ mixedRule :: [oldToNew])).RewriteUrl literalRegexp fixedClock
        "example.com" "/old" "sess1" "/old" =
      some (rewrittenUrl fixedClock mixedRule "sess1" "/old", true) ∧
    pathMatch literalRegexp (["(", "["] ++ ([] ++ "^/old$" :: [])) "/old" =
      pathMatch literalRegexp ([] ++ "^/old$" :: []) "/old" ∧
    ∀ rs : List UrlRewriteRule,
      (rewriterOf rs).RewriteUrl literalRegexp fixedClock "example.com" "/old" "sess1" "/old" =
        (rewriterOf (rs.map (dropInvalidPatterns literalRegexp))).RewriteUrl literalRegexp
          fixedClock "example.com" "/old" "sess1" "/old") :=
  ⟨by decide, by decide, by decide, by decide, by decide, by decide,
    RewriteUrl_invalid_patterns_skipped literalRegexp fixedClock [loginRule] [oldToNew]
      mixedRule ["(", "["] [] [] "^/old$" ⟨true, "/old".data, true⟩
      "example.com" "/old" "sess1" "/old"
      (by decide) (by decide) (by decide) (by decide) (by decide) (by decide)⟩

/-! ## Lemmas on the construction of the URL -/

theorem buildQueryParams_eq (clock : Nat → Int) (sessionId originalPath : String)
    (params : List UrlRewriteQuery) (k : Nat) (acc : List String) :
    buildQueryParams clock sessionId originalPath params k acc =
      acc ++ (params.enumFrom k).map
        (fun iq => iq.2.Key ++ "=" ++ substitute iq.2.Value sessionId originalPath (clock iq.1)) := by
  induction params generalizing k acc with
  | nil => simp [buildQueryParams]
  | cons q qs ih => simp [buildQueryParams, ih, List.enumFrom]

theorem foldl_join (sep : String) (es : List String) (e : String) :
    es.foldl (fun b s => b ++ sep ++ s) e = e ++ es.foldl (fun b s => b ++ sep ++ s) "" := by
  induction es generalizing e with
  | nil => simp
  | cons x xs ih =>
    rw [List.foldl_cons, List.foldl_cons, ih, ih ("" ++ sep ++ x)]
    simp [String.append_assoc]

theorem join_eq_joinedWithAmp (l : List String) : Join l "&" = joinedWithAmp l := by
  induction l with
  | nil => rfl
  | cons e es ih =>
    cases es with
    | nil => rfl
    | cons x xs =>
      have h1 : Join (e :: x :: xs) "&" = e ++ "&" ++ Join (x :: xs) "&" := by
        simp only [Join, List.foldl_cons]
        rw [foldl_join "&" xs (e ++ "&" ++ x), foldl_join "&" xs x]
        simp [String.append_assoc]
      rw [h1, ih]
      rfl

theorem rewrittenUrl_eq (clock : Nat → Int) (r : UrlRewriteRule)
    (sessionId originalPath : String) :
    rewrittenUrl clock r sessionId originalPath =
      if r.Rewrite.QueryParams = [] then r.Rewrite.Path
      else r.Rewrite.Path ++ "?" ++
        joinedWithAmp (queryPairs clock sessionId originalPath r.Rewrite.QueryParams) := by
  unfold rewrittenUrl queryPairs
  simp only [buildQueryParams_eq, List.nil_append, join_eq_joinedWithAmp, List.enum]
  cases h : r.Rewrite.QueryParams with
  | nil => simp
  | cons q qs => simp [String.append_assoc]

/-! ## Claims on the construction of the URL -/

/-- C6: query string assembly.  When a rule with `rewrite.path` `P` and
`query_params` `(k1, v1), ..., (kn, vn)` is the first that matches, the result
is `P` itself if `n = 0` and otherwise `P`, `?`, and the pairs `ki=vi'` joined
with `&` in the order of `query_params`, `vi'` being `vi` after placeholder
substitution; `P` and the keys are copied as they are.  When `^/old$` compiles
and matches `/old`, the rule `oldToNew` of example scenario 1 turns the request
`example.com`, `/old`, `sess1`, `/old` into `/new?from=/old`. -/
theorem RewriteUrl_query_assembly (regexp : RegexpPkg) (clock : Nat → Int)
    (pre post : List UrlRewriteRule) (r : UrlRewriteRule)
    (domain path sessionId originalPath : String)
    (hpre : ∀ r' ∈ pre, ¬ Matches regexp r' domain path)
    (hr : Matches regexp r domain path) :
    (rewriterOf (pre ++ r :: post)).RewriteUrl regexp clock domain path sessionId originalPath =
      some (if r.Rewrite.QueryParams = [] then r.Rewrite.Path
        else r.Rewrite.Path ++ "?" ++
          joinedWithAmp (queryPairs clock sessionId originalPath r.Rewrite.QueryParams), true) ∧
    (∀ re : regexp.Regexp, regexp.Compile "^/old$" = some re →
      regexp.MatchString re "/old" = true →
      (rewriterOf [oldToNew]).RewriteUrl regexp clock "example.com" "/old" "sess1" "/old" =
        some ("/new?from=/old", true)) := by
  constructor
  · rw [rewriteUrl_first regexp clock domain path sessionId originalPath pre r post hpre hr,
      rewrittenUrl_eq]
  · intro re hc hm
    have hx : Matches regexp oldToNew "example.com" "/old" :=
      ⟨by simp [oldToNew], "^/old$", by simp [oldToNew], re, hc, hm⟩
    have e := rewriteUrl_first regexp clock "example.com" "/old" "sess1" "/old" [] oldToNew []
      (by simp) hx
    rw [List.nil_append] at e
    rw [e]
    rfl

/-- C6 at the rule of example scenario 1, placed after a rule that does not match. -/
theorem RewriteUrl_query_assembly_witness :
    (∀ r' ∈ [loginRule], ¬ Matches literalRegexp r' "example.com" "/old") ∧
    Matches literalRegexp oldToNew "example.com" "/old" ∧
    (rewriterOf ([loginRule] ++ oldToNew :: [oldToOther])).RewriteUrl literalRegexp fixedClock
        "example.com" "/old" "sess1" "/old" =
      some (if oldToNew.Rewrite.QueryParams = [] then oldToNew.Rewrite.Path
        else oldToNew.Rewrite.Path ++ "?" ++
          joinedWithAmp (queryPairs fixedClock "sess1" "/old" oldToNew.Rewrite.QueryParams),
        true) ∧
    (rewriterOf [oldToNew]).RewriteUrl literalRegexp fixedClock
        "example.com" "/old" "sess1" "/old" = some ("/new?from=/old", true) :=
  have h := RewriteUrl_query_assembly literalRegexp fixedClock [loginRule] [oldToOther] oldToNew
    "example.com" "/old" "sess1" "/old" (by decide) (by decide)
  ⟨by decide, by decide, h.1, h.2 ⟨true, "/old".data, true⟩ (by decide) (by decide)⟩

/-- C7: the code at a rule with the parameter `(ts, {timestamp})`.  At the clock
reading 1700000000 the emitted pair is `ts=` followed by the one character
U+FFFD, not `ts=1700000000`; at the reading 65 it is `ts=A`; and at every
reading from 1114112 on the placeholder is replaced by U+FFFD. -/
theorem RewriteUrl_timestamp_is_code_point :
    (rewriterOf [stampRule]).RewriteUrl literalRegexp (fun _ => 1700000000)
        "example.com" "/old" "sess1" "/old" = some ("/new?ts=\uFFFD", true) ∧
    (rewriterOf [stampRule]).RewriteUrl literalRegexp (fun _ => 1700000000)
        "example.com" "/old" "sess1" "/old" ≠ some ("/new?ts=1700000000", true) ∧
    (rewriterOf [stampRule]).RewriteUrl literalRegexp (fun _ => 65)
        "example.com" "/old" "sess1" "/old" = some ("/new?ts=A", true) ∧
    ∀ (now : Int) (sessionId originalPath : String), 1114112 ≤ now →
      substitute "{timestamp}" sessionId originalPath now = "\uFFFD" := by
  refine ⟨by decide, by decide, by decide, ?_⟩
  intro now sessionId originalPath h
  have e : runeString now = "\uFFFD" := by
    unfold runeString
    rw [if_neg (by omega)]
    decide
  unfold substitute
  simp only [e]
  rfl

/-! ## Lemmas on replacement -/

theorem replaceFrom_skip (old new pre rest : List Char) :
    replaceFrom old new pre.length (pre ++ rest) = replaceFrom old new 0 rest := by
  induction pre with
  | nil => rfl
  | cons c pre ih => simpa [replaceFrom] using ih

theorem replaceFrom_hit (o : Char) (os new rest : List Char) :
    replaceFrom (o :: os) new 0 (o :: os ++ rest) =
      new ++ replaceFrom (o :: os) new 0 rest := by
  have h : (o :: os).isPrefixOf (o :: (os ++ rest)) = true := by
    rw [List.isPrefixOf_iff_prefix]
    exact ⟨rest, rfl⟩
  rw [List.cons_append, replaceFrom, if_pos h]
  have := replaceFrom_skip (o :: os) new os rest
  simpa using this

theorem replaceFrom_copy (o : Char) (os new pre rest : List Char) (h : ∀ c ∈ pre, c ≠ o) :
    replaceFrom (o :: os) new 0 (pre ++ rest) = pre ++ replaceFrom (o :: os) new 0 rest := by
  induction pre with
  | nil => rfl
  | cons c pre ih =>
    have hc : c ≠ o := h c (List.mem_cons_self _ _)
    have hn : (o :: os).isPrefixOf (c :: (pre ++ rest)) = false := by
      simp [List.isPrefixOf, Ne.symm hc]
    rw [List.cons_append, replaceFrom, if_neg (by simp [hn]),
      ih (fun c' h' => h c' (List.mem_cons_of_mem _ h'))]
    rfl

theorem replaceFrom_plain (o : Char) (os new s : List Char) (h : ∀ c ∈ s, c ≠ o) :
    replaceFrom (o :: os) new 0 s = s := by
  have := replaceFrom_copy o os new s [] h
  simpa [replaceFrom] using this

theorem ReplaceAll_data (s old new : String) (h : old.data ≠ []) :
    (ReplaceAll s old new).data = replaceFrom old.data new.data 0 s.data := by
  unfold ReplaceAll
  rw [if_neg h]

theorem substitute_data (value sessionId originalPath : String) (now : Int) :
    (substitute value sessionId originalPath now).data =
      replaceFrom Placeholder.id.text sessionId.data 0
        (replaceFrom Placeholder.timestamp.text (runeString now).data 0
          (replaceFrom Placeholder.original_path.text originalPath.data 0
            (replaceFrom Placeholder.session_id.text sessionId.data 0 value.data))) := by
  unfold substitute
  simp only []
  rw [ReplaceAll_data _ _ _ (by decide), ReplaceAll_data _ _ _ (by decide),
    ReplaceAll_data _ _ _ (by decide), ReplaceAll_data _ _ _ (by decide)]
  rfl

/-! ## Lemmas on templates cut into pieces -/

theorem body_plain (k : Placeholder) : ∀ c ∈ k.body, c ≠ '{' := by
  cases k <;> decide

theorem text_prefix_self (k : Placeholder) (rest : List Char) :
    k.text.isPrefixOf (k.text ++ rest) = true := by
  rw [List.isPrefixOf_iff_prefix]
  exact ⟨rest, rfl⟩

theorem text_not_prefix (j k : Placeholder) (h : j ≠ k) (rest : List Char) :
    k.text.isPrefixOf (j.text ++ rest) = false := by
  cases j <;> cases k <;>
    first
    | exact absurd rfl h
    | simp [Placeholder.text, Placeholder.body, List.isPrefixOf]

theorem replaceFrom_other (j k : Placeholder) (h : j ≠ k) (new rest : List Char) :
    replaceFrom k.text new 0 (j.text ++ rest) = j.text ++ replaceFrom k.text new 0 rest := by
  have hn := text_not_prefix j k h rest
  have e : j.text ++ rest = '{' :: (j.body ++ rest) := rfl
  rw [e] at hn ⊢
  rw [replaceFrom, if_neg (by simp [hn])]
  have := replaceFrom_copy '{' k.body new j.body rest (body_plain j)
  simpa [Placeholder.text] using this

theorem plain_tail (p : Piece) (ps : List Piece) (h : Plain (p :: ps)) : Plain ps :=
  fun c hc => h c (List.mem_cons_of_mem _ hc)

/-- Replacing placeholder `k` in a text made of plain characters, placeholders
and texts without an opening brace changes what `k` stands for and nothing else. -/
theorem replaceFrom_expand (k : Placeholder) (new : List Char) (f : Placeholder → List Char)
    (ps : List Piece) (hps : Plain ps) (hk : f k = k.text)
    (hf : ∀ j, j ≠ k → f j = j.text ∨ ∀ c ∈ f j, c ≠ '{') :
    replaceFrom k.text new 0 (expand f ps) = expand (Function.update f k new) ps := by
  induction ps with
  | nil => rfl
  | cons p ps ih =>
    have ih := ih (plain_tail p ps hps)
    cases p with
    | lit c =>
      have hc : c ≠ '{' := hps c (List.mem_cons_self _ _)
      have := replaceFrom_copy '{' k.body new [c] (expand f ps) (by simpa using hc)
      simp only [expand]
      rw [← ih]
      simpa [Placeholder.text] using this
    | tok j =>
      simp only [expand]
      by_cases hj : j = k
      · subst hj
        rw [hk, Function.update_same, ← ih]
        exact replaceFrom_hit '{' j.body new (expand f ps)
      · rw [Function.update_noteq hj, ← ih]
        rcases hf j hj with h1 | h1
        · rw [h1]
          exact replaceFrom_other j k hj new _
        · exact replaceFrom_copy '{' k.body new (f j) (expand f ps) h1

/-- The four successive replacements of the code on a template cut into pieces,
when the texts put in have no opening brace. -/
theorem substitute_expand (sid op ts : List Char) (ps : List Piece) (hps : Plain ps)
    (hs : ∀ c ∈ sid, c ≠ '{') (ho : ∀ c ∈ op, c ≠ '{') (ht : ∀ c ∈ ts, c ≠ '{') :
    replaceFrom Placeholder.id.text sid 0
        (replaceFrom Placeholder.timestamp.text ts 0
          (replaceFrom Placeholder.original_path.text op 0
            (replaceFrom Placeholder.session_id.text sid 0 (expand Placeholder.text ps)))) =
      expand (finalText sid op ts) ps := by
  rw [replaceFrom_expand .session_id sid Placeholder.text ps hps rfl (fun j _ => Or.inl rfl)]
  rw [replaceFrom_expand .original_path op _ ps hps (by simp [Function.update])
    (by
      intro j hj
      cases j
      · exact Or.inr (by simpa [Function.update] using hs)
      · exact absurd rfl hj
      · exact Or.inl (by simp [Function.update])
      · exact Or.inl (by simp [Function.update]))]
  rw [replaceFrom_expand .timestamp ts _ ps hps (by simp [Function.update])
    (by
      intro j hj
      cases j
      · exact Or.inr (by simpa [Function.update] using hs)
      · exact Or.inr (by simpa [Function.update] using ho)
      · exact absurd rfl hj
      · exact Or.inl (by simp [Function.update]))]
  rw [replaceFrom_expand .id sid _ ps hps (by simp [Function.update])
    (by
      intro j hj
      cases j
      · exact Or.inr (by simpa [Function.update] using hs)
      · exact Or.inr (by simpa [Function.update] using ho)
      · exact Or.inr (by simpa [Function.update] using ht)
      · exact absurd rfl hj)]
  congr 1
  funext k
  cases k <;> simp [Function.update, finalText]

theorem expandFrom_skip (sid op ts pre rest : List Char) :
    expandFrom sid op ts pre.length (pre ++ rest) = expandFrom sid op ts 0 rest := by
  induction pre with
  | nil => rfl
  | cons c pre ih => simpa [expandFrom] using ih

theorem expandFrom_cons (sid op ts : List Char) (c : Char) (cs : List Char) :
    expandFrom sid op ts 0 (c :: cs) =
      if Placeholder.session_id.text.isPrefixOf (c :: cs) then
        sid ++ expandFrom sid op ts Placeholder.session_id.body.length cs
      else if Placeholder.original_path.text.isPrefixOf (c :: cs) then
        op ++ expandFrom sid op ts Placeholder.original_path.body.length cs
      else if Placeholder.timestamp.text.isPrefixOf (c :: cs) then
        ts ++ expandFrom sid op ts Placeholder.timestamp.body.length cs
      else if Placeholder.id.text.isPrefixOf (c :: cs) then
        sid ++ expandFrom sid op ts Placeholder.id.body.length cs
      else c :: expandFrom sid op ts 0 cs := rfl

theorem expandFrom_lit (sid op ts : List Char) (c : Char) (cs : List Char) (hc : c ≠ '{') :
    expandFrom sid op ts 0 (c :: cs) = c :: expandFrom sid op ts 0 cs := by
  have h : ∀ k : Placeholder, k.text.isPrefixOf (c :: cs) = false := by
    intro k
    simp [Placeholder.text, List.isPrefixOf, Ne.symm hc]
  rw [expandFrom_cons]
  simp [h]

theorem expandFrom_tok (sid op ts : List Char) (k : Placeholder) (rest : List Char) :
    expandFrom sid op ts 0 (k.text ++ rest) =
      finalText sid op ts k ++ expandFrom sid op ts 0 rest := by
  have hs := expandFrom_skip sid op ts k.body rest
  have e : k.text ++ rest = '{' :: (k.body ++ rest) := rfl
  have hp := text_prefix_self k rest
  have hn := fun j (h : k ≠ j) => text_not_prefix k j h rest
  rw [e] at hp hn ⊢
  rw [expandFrom_cons]
  cases k
  · simp [hp, hs, finalText]
  · simp [hp, hs, finalText, hn .session_id (by decide)]
  · simp [hp, hs, finalText, hn .session_id (by decide), hn .original_path (by decide)]
  · simp [hp, hs, finalText, hn .session_id (by decide), hn .original_path (by decide),
      hn .timestamp (by decide)]

/-- The one-pass substitution on a template cut into pieces. -/
theorem expandFrom_expand (sid op ts : List Char) (ps : List Piece) (hps : Plain ps) :
    expandFrom sid op ts 0 (expand Placeholder.text ps) = expand (finalText sid op ts) ps := by
  induction ps with
  | nil => rfl
  | cons p ps ih =>
    have ih := ih (plain_tail p ps hps)
    cases p with
    | lit c =>
      simp only [expand]
      rw [expandFrom_lit sid op ts c _ (hps c (List.mem_cons_self _ _)), ih]
    | tok j =>
      simp only [expand]
      rw [expandFrom_tok, ih]

theorem wellBraced_append_right (a b : List Char) (h : wellBraced (a ++ b) = true) :
    wellBraced b = true := by
  induction a with
  | nil => exact h
  | cons c a ih =>
    rw [List.cons_append, wellBraced, Bool.and_eq_true] at h
    exact ih h.2

theorem startsPlaceholder_split (cs : List Char) (h : startsPlaceholder cs = true) :
    ∃ k rest, cs = Placeholder.text k ++ rest := by
  unfold startsPlaceholder at h
  simp only [Bool.or_eq_true, List.isPrefixOf_iff_prefix] at h
  rcases h with ((⟨t, ht⟩ | ⟨t, ht⟩) | ⟨t, ht⟩) | ⟨t, ht⟩
  · exact ⟨.session_id, t, ht.symm⟩
  · exact ⟨.original_path, t, ht.symm⟩
  · exact ⟨.timestamp, t, ht.symm⟩
  · exact ⟨.id, t, ht.symm⟩

/-- A well braced template is the text of a list of pieces. -/
theorem exists_pieces (n : Nat) : ∀ v : List Char, v.length ≤ n → wellBraced v = true →
    ∃ ps, Plain ps ∧ expand Placeholder.text ps = v := by
  induction n with
  | zero =>
    intro v hv _
    have : v = [] := List.length_eq_zero.mp (Nat.le_zero.mp hv)
    exact ⟨[], by simp [Plain], by simp [this, expand]⟩
  | succ n ih =>
    intro v hv hw
    cases v with
    | nil => exact ⟨[], by simp [Plain], rfl⟩
    | cons c cs =>
      by_cases hc : c = '{'
      · have hw' := hw
        rw [wellBraced, Bool.and_eq_true] at hw'
        have hst : startsPlaceholder (c :: cs) = true := by
          have := hw'.1
          simpa [hc] using this
        obtain ⟨k, rest, e⟩ := startsPlaceholder_split _ hst
        have hrest : wellBraced rest = true := wellBraced_append_right k.text rest (e ▸ hw)
        have hlen : rest.length ≤ n := by
          have : (c :: cs).length = (k.text ++ rest).length := by rw [e]
          simp [Placeholder.text] at this hv
          omega
        obtain ⟨ps, hps, hx⟩ := ih rest hlen hrest
        refine ⟨.tok k :: ps, ?_, by rw [e, expand, hx]⟩
        intro c' h'
        rcases List.mem_cons.mp h' with h1 | h1
        · exact Piece.noConfusion h1
        · exact hps c' h1
      · rw [wellBraced, Bool.and_eq_true] at hw
        have hlen : cs.length ≤ n := by simpa using hv
        obtain ⟨ps, hps, hx⟩ := ih cs hlen hw.2
        refine ⟨.lit c :: ps, ?_, by rw [expand, hx]⟩
        intro c' h'
        rcases List.mem_cons.mp h' with h1 | h1
        · cases h1; exact hc
        · exact hps c' h1

/-! ## Lemmas on the substitution of a well braced template -/

theorem runeString_plain (now : Int) (h : now ≠ 123) :
    ∀ c ∈ (runeString now).data, c ≠ '{' := by
  intro c hc e
  subst e
  unfold runeString at hc
  split at hc
  · rename_i hv
    have hc : '{' ∈ [Char.ofNat now.toNat] := hc
    rw [List.mem_singleton] at hc
    have h1 : (Char.ofNat now.toNat).toNat = 123 := by rw [← hc]; rfl
    have hvalid : now.toNat.isValidChar := by
      unfold Nat.isValidChar
      omega
    have h2 : (Char.ofNat now.toNat).toNat = now.toNat := by
      simp only [Char.ofNat, hvalid, Char.ofNatAux, Char.toNat, dite_true]
      rfl
    omega
  · revert hc
    decide

/-- On a well braced template, with texts without an opening brace, the four
successive replacements come to the one-pass substitution. -/
theorem substitute_wellBraced (value sessionId originalPath : String) (now : Int)
    (hv : wellBraced value.data = true) (hs : '{' ∉ sessionId.data)
    (ho : '{' ∉ originalPath.data) (ht : now ≠ 123) :
    ∃ ps, Plain ps ∧ expand Placeholder.text ps = value.data ∧
      (substitute value sessionId originalPath now).data =
        expand (finalText sessionId.data originalPath.data (runeString now).data) ps := by
  obtain ⟨ps, hps, hx⟩ := exists_pieces value.data.length value.data (Nat.le_refl _) hv
  refine ⟨ps, hps, hx, ?_⟩
  rw [substitute_data, ← hx]
  exact substitute_expand _ _ _ ps hps (fun c hc e => hs (e ▸ hc)) (fun c hc e => ho (e ▸ hc))
    (runeString_plain now ht)

theorem expand_toId (ps : List Piece) :
    expand (Function.update Placeholder.text .session_id Placeholder.id.text) ps =
      expand Placeholder.text (ps.map Piece.toId) := by
  induction ps with
  | nil => rfl
  | cons p ps ih =>
    cases p with
    | lit c => simp [expand, Piece.toId, ih]
    | tok j => cases j <;> simp [expand, Piece.toId, ih, Function.update]

theorem expand_finalText_toId (sid op ts : List Char) (ps : List Piece) :
    expand (finalText sid op ts) (ps.map Piece.toId) = expand (finalText sid op ts) ps := by
  induction ps with
  | nil => rfl
  | cons p ps ih =>
    cases p with
    | lit c => simp [expand, Piece.toId, ih]
    | tok j => cases j <;> simp [expand, Piece.toId, ih, finalText]

theorem plain_toId (ps : List Piece) (h : Plain ps) : Plain (ps.map Piece.toId) := by
  intro c hc
  obtain ⟨p, hp, e⟩ := List.mem_map.mp hc
  cases p with
  | lit c' =>
    simp only [Piece.toId] at e
    cases e
    exact h c hp
  | tok j => cases j <;> simp [Piece.toId] at e

/-- On a well braced template, rewriting `{session_id}` to `{id}` does not change
the substituted value. -/
theorem substitute_alias (value sessionId originalPath : String) (now : Int)
    (hv : wellBraced value.data = true) (hs : '{' ∉ sessionId.data)
    (ho : '{' ∉ originalPath.data) (ht : now ≠ 123) :
    substitute (ReplaceAll value "{session_id}" "{id}") sessionId originalPath now =
      substitute value sessionId originalPath now := by
  obtain ⟨ps, hps, hx, hsub⟩ := substitute_wellBraced value sessionId originalPath now hv hs ho ht
  apply String.ext
  rw [hsub, substitute_data, ReplaceAll_data _ _ _ (by decide), ← hx]
  have e1 : replaceFrom "{session_id}".data "{id}".data 0 (expand Placeholder.text ps) =
      expand Placeholder.text (ps.map Piece.toId) := by
    rw [← expand_toId]
    exact replaceFrom_expand .session_id Placeholder.id.text Placeholder.text ps hps rfl
      (fun j _ => Or.inl rfl)
  rw [e1, substitute_expand _ _ _ _ (plain_toId ps hps) (fun c hc e => hs (e ▸ hc))
    (fun c hc e => ho (e ▸ hc)) (runeString_plain now ht), expand_finalText_toId]

theorem buildQueryParams_alias (clock : Nat → Int) (sessionId originalPath : String)
    (hs : '{' ∉ sessionId.data) (ho : '{' ∉ originalPath.data) (ht : ∀ k, clock k ≠ 123)
    (params : List UrlRewriteQuery) (hv : ∀ q ∈ params, wellBraced q.Value.data = true)
    (k : Nat) (acc : List String) :
    buildQueryParams clock sessionId originalPath
        (params.map (fun q => { q with Value := ReplaceAll q.Value "{session_id}" "{id}" }))
        k acc =
      buildQueryParams clock sessionId originalPath params k acc := by
  induction params generalizing k acc with
  | nil => rfl
  | cons q qs ih =>
    simp only [List.map_cons, buildQueryParams]
    rw [substitute_alias q.Value sessionId originalPath (clock k)
      (hv q (List.mem_cons_self _ _)) hs ho (ht k)]
    exact ih (fun q' h' => hv q' (List.mem_cons_of_mem _ h')) _ _

theorem rewriteLoop_alias (regexp : RegexpPkg) (clock : Nat → Int)
    (domain path sessionId originalPath : String)
    (hs : '{' ∉ sessionId.data) (ho : '{' ∉ originalPath.data) (ht : ∀ k, clock k ≠ 123)
    (rs : List UrlRewriteRule)
    (hv : ∀ r ∈ rs, Matches regexp r domain path →
      ∀ q ∈ r.Rewrite.QueryParams, wellBraced q.Value.data = true) :
    rewriteLoop regexp clock domain path sessionId originalPath ((rs.map aliasToId).map some) =
      rewriteLoop regexp clock domain path sessionId originalPath (rs.map some) := by
  induction rs with
  | nil => rfl
  | cons r rs ih =>
    have ih := ih (fun r' h' => hv r' (List.mem_cons_of_mem _ h'))
    simp only [List.map_cons]
    by_cases hm : Matches regexp r domain path
    · have hm' : Matches regexp (aliasToId r) domain path := hm
      rw [rewriteLoop_hit regexp clock domain path sessionId originalPath r _ hm,
        rewriteLoop_hit regexp clock domain path sessionId originalPath _ _ hm']
      have e : rewrittenUrl clock (aliasToId r) sessionId originalPath =
          rewrittenUrl clock r sessionId originalPath := by
        unfold rewrittenUrl aliasToId
        simp only []
        rw [buildQueryParams_alias clock sessionId originalPath hs ho ht _
          (hv r (List.mem_cons_self _ _) hm)]
      rw [e]
    · have hm' : ¬ Matches regexp (aliasToId r) domain path := hm
      rw [rewriteLoop_skip regexp clock domain path sessionId originalPath r _ hm,
        rewriteLoop_skip regexp clock domain path sessionId originalPath _ _ hm']
      exact ih

/-! ## Claims on placeholder substitution -/

/-- C8 as stated fails.  With the session id `{original_path}` the template
`{session_id}` gives `/old` and the template `{id}` gives `{original_path}`.
With an empty session id the template `{original_path{session_id}}` gives `/old`
and its rewriting to `{id}` gives `{original_path}`.  With the original path
`{i` and the session id `d` the template `{original_path}{session_id}}` gives
`d` and its rewriting gives `{id}`; so does, at the clock reading 123, the
template `{timestamp}i{session_id}}`. -/
theorem RewriteUrl_id_alias_counterexample :
    ((rewriterOf [templateRule "{session_id}"]).RewriteUrl literalRegexp fixedClock
        "example.com" "/old" "{original_path}" "/old" = some ("/new?v=/old", true) ∧
      (rewriterOf [templateRule "{id}"]).RewriteUrl literalRegexp fixedClock
        "example.com" "/old" "{original_path}" "/old" = some ("/new?v={original_path}", true) ∧
      aliasToId (templateRule "{session_id}") = templateRule "{id}") ∧
    ((rewriterOf [templateRule "{original_path{session_id}}"]).RewriteUrl literalRegexp
        fixedClock "example.com" "/old" "" "/old" = some ("/new?v=/old", true) ∧
      (rewriterOf [aliasToId (templateRule "{original_path{session_id}}")]).RewriteUrl
        literalRegexp fixedClock "example.com" "/old" "" "/old" =
          some ("/new?v={original_path}", true)) ∧
    ((rewriterOf [templateRule "{original_path}{session_id}\x7d"]).RewriteUrl literalRegexp
        fixedClock "example.com" "/old" "d" "\x7bi" = some ("/new?v=d", true) ∧
      (rewriterOf [aliasToId (templateRule "{original_path}{session_id}\x7d")]).RewriteUrl
        literalRegexp fixedClock "example.com" "/old" "d" "\x7bi" =
          some ("/new?v={id}", true)) ∧
    ((rewriterOf [templateRule "{timestamp}i{session_id}\x7d"]).RewriteUrl literalRegexp
        (fun _ => 123) "example.com" "/old" "d" "/old" = some ("/new?v=d", true) ∧
      (rewriterOf [aliasToId (templateRule "{timestamp}i{session_id}\x7d")]).RewriteUrl
        literalRegexp (fun _ => 123) "example.com" "/old" "d" "/old" =
          some ("/new?v={id}", true)) := by
  decide

/-- C8, amended.  For a session id and an original path without `{`, clock
readings other than 123 (the code point of `{`), and a rule list in which every
`{` of the value templates of the matching rules begins one of the four
placeholders, rewriting every `{session_id}` to `{id}` in the value templates
leaves the result of `RewriteUrl` unchanged; the templates `{session_id}` and
`{id}` give the same value.  With the parameters `(sid, {session_id})`,
`(legacy, {id})` and the session id `abc` the result is
`/new?sid=abc&legacy=abc`. -/
theorem RewriteUrl_id_alias (regexp : RegexpPkg) (clock : Nat → Int)
    (rs : List UrlRewriteRule) (domain path sessionId originalPath : String)
    (hv : ∀ r ∈ rs, Matches regexp r domain path →
      ∀ q ∈ r.Rewrite.QueryParams, wellBraced q.Value.data = true)
    (hs : '{' ∉ sessionId.data) (ho : '{' ∉ originalPath.data) (ht : ∀ k, clock k ≠ 123) :
    (rewriterOf (rs.map aliasToId)).RewriteUrl regexp clock domain path sessionId originalPath =
      (rewriterOf rs).RewriteUrl regexp clock domain path sessionId originalPath ∧
    (∀ k, substitute "{id}" sessionId originalPath (clock k) =
      substitute "{session_id}" sessionId originalPath (clock k)) ∧
    (∀ re : regexp.Regexp, regexp.Compile "^/old$" = some re →
      regexp.MatchString re "/old" = true →
      (rewriterOf [aliasRule]).RewriteUrl regexp clock "example.com" "/old" "abc" originalPath =
        some ("/new?sid=abc&legacy=abc", true)) := by
  refine ⟨?_, ?_, ?_⟩
  · unfold UrlRewriter.RewriteUrl
    rw [rewriterOf_rules, rewriterOf_rules]
    exact rewriteLoop_alias regexp clock domain path sessionId originalPath hs ho ht rs hv
  · intro k
    exact substitute_alias "{session_id}" sessionId originalPath (clock k) (by decide) hs ho (ht k)
  · intro re hc hm
    have hx : Matches regexp aliasRule "example.com" "/old" :=
      ⟨by simp [aliasRule], "^/old$", by simp [aliasRule], re, hc, hm⟩
    have e := rewriteUrl_first regexp clock "example.com" "/old" "abc" originalPath
      [] aliasRule [] (by simp) hx
    rw [List.nil_append] at e
    rw [e]
    rfl

/-- C8, amended, at the rules `loginRule, aliasRule`, the session id `abc` and
the original path `/old`. -/
theorem RewriteUrl_id_alias_witness :
    (∀ r ∈ [loginRule, aliasRule], Matches literalRegexp r "example.com" "/old" →
      ∀ q ∈ r.Rewrite.QueryParams, wellBraced q.Value.data = true) ∧
    '{' ∉ "abc".data ∧ '{' ∉ "/old".data ∧ (∀ k, fixedClock k ≠ 123) ∧
    (rewriterOf ([loginRule, aliasRule].map aliasToId)).RewriteUrl literalRegexp fixedClock
        "example.com" "/old" "abc" "/old" =
      (rewriterOf [loginRule, aliasRule]).RewriteUrl literalRegexp fixedClock
        "example.com" "/old" "abc" "/old" ∧
    (∀ k, substitute "{id}" "abc" "/old" (fixedClock k) =
      substitute "{session_id}" "abc" "/old" (fixedClock k)) ∧
    (rewriterOf [aliasRule]).RewriteUrl literalRegexp fixedClock
      "example.com" "/old" "abc" "/old" = some ("/new?sid=abc&legacy=abc", true) :=
  have h := RewriteUrl_id_alias literalRegexp fixedClock [loginRule, aliasRule]
    "example.com" "/old" "abc" "/old" (by decide) (by decide) (by decide)
    (fun _ => by simp [fixedClock])
  ⟨by decide, by decide, by decide, fun _ => by simp [fixedClock],
    h.1, h.2.1, h.2.2 ⟨true, "/old".data, true⟩ (by decide) (by decide)⟩

/-- C9 as stated fails.  With the session id `{original_path}` and the original
path `/old`, the code turns the template `{session_id}` into `/old`: the text
brought in for `{session_id}` is expanded again by the replacement of
`{original_path}`.  The simultaneous substitution gives `{original_path}`.
The two also differ on the template `{original_path{session_id}}` with an empty
session id, on the template `{original_path}` with the original path `{id}`,
and on the template `{timestamp}id}` at the clock reading 123. -/
theorem substitute_independent_counterexample :
    (substitute "{session_id}" "{original_path}" "/old" 1700000000 = "/old" ∧
      substituteAtOnce "{session_id}" "{original_path}" "/old" 1700000000 =
        "{original_path}" ∧
      substitute "{session_id}" "{original_path}" "/old" 1700000000 ≠
        substituteAtOnce "{session_id}" "{original_path}" "/old" 1700000000) ∧
    (substitute "{original_path{session_id}}" "" "/old" 1700000000 = "/old" ∧
      substituteAtOnce "{original_path{session_id}}" "" "/old" 1700000000 =
        "{original_path}") ∧
    (substitute "{original_path}" "abc" "{id}" 1700000000 = "abc" ∧
      substituteAtOnce "{original_path}" "abc" "{id}" 1700000000 = "{id}") ∧
    (substitute "{timestamp}id\x7d" "abc" "/old" 123 = "abc" ∧
      substituteAtOnce "{timestamp}id\x7d" "abc" "/old" 123 = "{id}") := by
  decide

/-- C9, amended.  For a value template in which every `{` begins one of the four
placeholders, a session id and an original path without `{`, and a clock
reading other than 123 (whose time string is `{`), the substituted value equals
the simultaneous substitution of the placeholder occurrences of the template:
`{session_id}` and `{id}` by the session id, `{original_path}` by the original
path, `{timestamp}` by the time string. -/
theorem substitute_independent (value sessionId originalPath : String) (now : Int)
    (hv : wellBraced value.data = true) (hs : '{' ∉ sessionId.data)
    (ho : '{' ∉ originalPath.data) (ht : now ≠ 123) :
    substitute value sessionId originalPath now =
      substituteAtOnce value sessionId originalPath now := by
  obtain ⟨ps, hps, hx, hsub⟩ := substitute_wellBraced value sessionId originalPath now hv hs ho ht
  apply String.ext
  rw [hsub]
  unfold substituteAtOnce
  simp only []
  rw [← hx, expandFrom_expand _ _ _ ps hps]

/-- C9, amended, at a template with the four placeholders. -/
theorem substitute_independent_witness :
    wellBraced "a={session_id}&b={original_path}&c={timestamp}&d={id}".data = true ∧
    '{' ∉ "abc".data ∧ '{' ∉ "/old".data ∧ (1700000000 : Int) ≠ 123 ∧
    substitute "a={session_id}&b={original_path}&c={timestamp}&d={id}" "abc" "/old" 1700000000 =
      substituteAtOnce "a={session_id}&b={original_path}&c={timestamp}&d={id}" "abc" "/old"
        1700000000 :=
  ⟨by decide, by decide, by decide, by decide,
    substitute_independent "a={session_id}&b={original_path}&c={timestamp}&d={id}" "abc" "/old"
      1700000000 (by decide) (by decide) (by decide) (by decide)⟩

/-- C10: every occurrence of a placeholder is substituted.  For a session id
without `{` and a template `a ++ {session_id} ++ b ++ {session_id} ++ c` whose
`a`, `b`, `c` have no `{`, the substituted value is
`a ++ sessionId ++ b ++ sessionId ++ c`, and `{session_id}` does not occur in it. -/
theorem substitute_every_occurrence (a b c sessionId originalPath : String) (now : Int)
    (ha : '{' ∉ a.data) (hb : '{' ∉ b.data) (hc : '{' ∉ c.data)
    (hs : '{' ∉ sessionId.data) :
    substitute (a ++ "{session_id}" ++ b ++ "{session_id}" ++ c) sessionId originalPath now =
      a ++ sessionId ++ b ++ sessionId ++ c ∧
    ¬ ("{session_id}".data <:+:
      (substitute (a ++ "{session_id}" ++ b ++ "{session_id}" ++ c)
        sessionId originalPath now).data) := by
  have ne : ∀ l : List Char, '{' ∉ l → ∀ x ∈ l, x ≠ '{' := fun l h x hx e => h (e ▸ hx)
  have hR : '{' ∉ a.data ++ (sessionId.data ++ (b.data ++ (sessionId.data ++ c.data))) := by
    simp only [List.mem_append, not_or]
    exact ⟨ha, hs, hb, hs, hc⟩
  have h1 : replaceFrom Placeholder.session_id.text sessionId.data 0
      (a.data ++ (Placeholder.session_id.text ++ (b.data ++
        (Placeholder.session_id.text ++ c.data)))) =
      a.data ++ (sessionId.data ++ (b.data ++ (sessionId.data ++ c.data))) := by
    rw [Placeholder.text, replaceFrom_copy _ _ _ _ _ (ne _ ha), replaceFrom_hit,
      replaceFrom_copy _ _ _ _ _ (ne _ hb), replaceFrom_hit, replaceFrom_plain _ _ _ _ (ne _ hc)]
  have key : (substitute (a ++ "{session_id}" ++ b ++ "{session_id}" ++ c)
      sessionId originalPath now).data =
      a.data ++ (sessionId.data ++ (b.data ++ (sessionId.data ++ c.data))) := by
    have h0 : (a ++ "{session_id}" ++ b ++ "{session_id}" ++ c).data =
        a.data ++ (Placeholder.session_id.text ++ (b.data ++
          (Placeholder.session_id.text ++ c.data))) := by
      simp only [String.data_append, List.append_assoc]
      rfl
    rw [substitute_data, h0, h1]
    simp only [Placeholder.text]
    rw [replaceFrom_plain _ _ _ _ (ne _ hR), replaceFrom_plain _ _ _ _ (ne _ hR),
      replaceFrom_plain _ _ _ _ (ne _ hR)]
  constructor
  · apply String.ext
    rw [key]
    simp only [String.data_append, List.append_assoc]
  · intro hin
    rw [key] at hin
    exact hR (hin.subset (by decide))

/-- C10 at the template `x={session_id}&y={session_id};` and the session id `abc`. -/
theorem substitute_every_occurrence_witness :
    '{' ∉ "x=".data ∧ '{' ∉ "&y=".data ∧ '{' ∉ ";".data ∧ '{' ∉ "abc".data ∧
    (substitute ("x=" ++ "{session_id}" ++ "&y=" ++ "{session_id}" ++ ";") "abc" "/old"
        1700000000 = "x=" ++ "abc" ++ "&y=" ++ "abc" ++ ";" ∧
    ¬ ("{session_id}".data <:+:
      (substitute ("x=" ++ "{session_id}" ++ "&y=" ++ "{session_id}" ++ ";") "abc" "/old"
        1700000000).data)) :=
  ⟨by decide, by decide, by decide, by decide,
    substitute_every_occurrence "x=" "&y=" ";" "abc" "/old" 1700000000
      (by decide) (by decide) (by decide) (by decide)⟩

/-! ## Lemmas on templates without placeholders -/

theorem replaceFrom_absent (old new s : List Char) (h : ¬ old <:+: s) :
    replaceFrom old new 0 s = s := by
  induction s with
  | nil => rfl
  | cons c cs ih =>
    have hn : ¬ old.isPrefixOf (c :: cs) = true := by
      rw [List.isPrefixOf_iff_prefix]
      exact fun hp => h hp.isInfix
    rw [replaceFrom, if_neg hn, ih (fun hi => h (List.infix_cons hi))]

theorem ReplaceAll_absent (s old new : String) (h : ¬ old.data <:+: s.data) :
    ReplaceAll s old new = s := by
  have hne : old.data ≠ [] := by
    intro e
    exact h (e ▸ List.nil_infix)
  apply String.ext
  rw [ReplaceAll_data s old new hne, replaceFrom_absent _ _ _ h]

/-! ## Further claims on placeholder substitution -/

/-- C11: unrecognised placeholder syntax is left untouched.  For a value template
in which none of `{session_id}`, `{original_path}`, `{timestamp}`, `{id}`
occurs, whatever the session id, the original path and the clock reading, the
substituted value is the template itself and the emitted pair is the key, `=`
and the template as it stands. -/
theorem substitute_unrecognised (key value sessionId originalPath : String)
    (clock : Nat → Int) (k : Nat) (queryParams : List String)
    (h1 : ¬ "{session_id}".data <:+: value.data)
    (h2 : ¬ "{original_path}".data <:+: value.data)
    (h3 : ¬ "{timestamp}".data <:+: value.data)
    (h4 : ¬ "{id}".data <:+: value.data) :
    substitute value sessionId originalPath (clock k) = value ∧
    buildQueryParams clock sessionId originalPath [{ Key := key, Value := value }] k
      queryParams = queryParams ++ [key ++ "=" ++ value] := by
  have e : ∀ now, substitute value sessionId originalPath now = value := by
    intro now
    unfold substitute
    simp only []
    rw [ReplaceAll_absent value _ _ h1, ReplaceAll_absent value _ _ h2,
      ReplaceAll_absent value _ _ h3, ReplaceAll_absent value _ _ h4]
  refine ⟨e _, ?_⟩
  simp only [buildQueryParams, e]

/-- C11 at the template `{foo}{session}`. -/
theorem substitute_unrecognised_witness :
    ¬ "{session_id}".data <:+: "{foo}{session}".data ∧
    ¬ "{original_path}".data <:+: "{foo}{session}".data ∧
    ¬ "{timestamp}".data <:+: "{foo}{session}".data ∧
    ¬ "{id}".data <:+: "{foo}{session}".data ∧
    substitute "{foo}{session}" "abc" "/old" (fixedClock 0) = "{foo}{session}" ∧
    buildQueryParams fixedClock "abc" "/old" [{ Key := "k", Value := "{foo}{session}" }] 0
      [] = [] ++ ["k" ++ "=" ++ "{foo}{session}"] :=
  ⟨by decide, by decide, by decide, by decide,
    substitute_unrecognised "k" "{foo}{session}" "abc" "/old" fixedClock 0 []
      (by decide) (by decide) (by decide) (by decide)⟩

/-! ## Claims on `GetOriginalPath` and `AddRule` -/

/-- C12: `GetOriginalPath` is a pure lookup of the key `redirect`.  It returns
`(v, true)` exactly when the map holds `redirect` with value `v` (the empty
string included), returns the empty string and `false` when the key is absent,
and gives the same result on two maps that agree on `redirect`.  The map
`{redirect: /foo, other: x}` gives `(/foo, true)` and `{other: x}` gives the
empty string and `false`. -/
theorem GetOriginalPath_lookup (u : UrlRewriter) (m : String → Option String) :
    (∀ v, u.GetOriginalPath m = (v, true) ↔ m "redirect" = some v) ∧
    (m "redirect" = none ↔ u.GetOriginalPath m = ("", false)) ∧
    (∀ m' : String → Option String, m' "redirect" = m "redirect" →
      u.GetOriginalPath m' = u.GetOriginalPath m) ∧
    (∀ (u' : UrlRewriter), u'.GetOriginalPath m = u.GetOriginalPath m) ∧
    u.GetOriginalPath redirectQuery = ("/foo", true) ∧
    u.GetOriginalPath otherQuery = ("", false) := by
  refine ⟨?_, ?_, ?_, ?_, rfl, rfl⟩
  · intro v
    unfold UrlRewriter.GetOriginalPath
    cases h : m "redirect" with
    | none => simp
    | some w => simp
  · unfold UrlRewriter.GetOriginalPath
    cases h : m "redirect" with
    | none => simp
    | some w => simp
  · intro m' h
    unfold UrlRewriter.GetOriginalPath
    rw [h]
  · intro u'
    rfl

theorem foldl_AddRule_rules (l : List (Option UrlRewriteRule)) (v : UrlRewriter) :
    (l.foldl UrlRewriter.AddRule v).rules = v.rules ++ l := by
  induction l generalizing v with
  | nil => simp
  | cons a l ih =>
    rw [List.foldl_cons, ih]
    simp [UrlRewriter.AddRule]

/-- C13: `AddRule` appends.  After `AddRule(r)` the rule sequence is the former
one followed by `r`: its length grows by one and the earlier rules keep their
position and content.  A rewriter from `NewUrlRewriter` has no rule, so after
`AddRule(r1), ..., AddRule(rn)` the sequence is `r1, ..., rn`. -/
theorem AddRule_appends (u : UrlRewriter) (r : Option UrlRewriteRule)
    (rs : List (Option UrlRewriteRule)) :
    (u.AddRule r).rules = u.rules ++ [r] ∧
    (u.AddRule r).rules.length = u.rules.length + 1 ∧
    (∀ i, i < u.rules.length → (u.AddRule r).rules[i]? = u.rules[i]?) ∧
    (u.AddRule r).rules[u.rules.length]? = some r ∧
    NewUrlRewriter.rules = [] ∧
    (rs.foldl UrlRewriter.AddRule NewUrlRewriter).rules = rs := by
  refine ⟨rfl, by simp [UrlRewriter.AddRule], ?_, by simp [UrlRewriter.AddRule], rfl, ?_⟩
  · intro i hi
    simp only [UrlRewriter.AddRule]
    exact List.getElem?_append_left hi
  · simpa [NewUrlRewriter] using foldl_AddRule_rules rs NewUrlRewriter

/-! ## Lemmas on panics and on appended rules -/

theorem rewriteLoop_total (regexp : RegexpPkg) (clock : Nat → Int)
    (domain path sessionId originalPath : String) (l : List (Option UrlRewriteRule))
    (h : ∀ p ∈ l, p ≠ none) :
    ∃ res, rewriteLoop regexp clock domain path sessionId originalPath l = some res := by
  induction l with
  | nil => exact ⟨(path, false), rfl⟩
  | cons a l ih =>
    have ih := ih (fun p hp => h p (List.mem_cons_of_mem _ hp))
    cases a with
    | none => exact absurd rfl (h none (List.mem_cons_self _ _))
    | some r =>
      by_cases hm : Matches regexp r domain path
      · exact ⟨_, rewriteLoop_hit regexp clock domain path sessionId originalPath r l hm⟩
      · rw [rewriteLoop_skip regexp clock domain path sessionId originalPath r l hm]
        exact ih

theorem rewriteLoop_append (regexp : RegexpPkg) (clock : Nat → Int)
    (domain path sessionId originalPath : String) (l l' : List (Option UrlRewriteRule))
    (x : String) (b : Bool)
    (h : rewriteLoop regexp clock domain path sessionId originalPath l = some (x, b)) :
    (b = true →
      rewriteLoop regexp clock domain path sessionId originalPath (l ++ l') = some (x, true)) ∧
    (b = false → x = path ∧
      rewriteLoop regexp clock domain path sessionId originalPath (l ++ l') =
        rewriteLoop regexp clock domain path sessionId originalPath l') := by
  induction l with
  | nil =>
    simp only [rewriteLoop, Option.some.injEq, Prod.mk.injEq] at h
    obtain ⟨hx, hb⟩ := h
    subst hx
    subst hb
    exact ⟨fun hb => absurd hb (by decide), fun _ => ⟨rfl, rfl⟩⟩
  | cons a l ih =>
    cases a with
    | none => simp [rewriteLoop] at h
    | some r =>
      by_cases hm : Matches regexp r domain path
      · rw [rewriteLoop_hit regexp clock domain path sessionId originalPath r l hm] at h
        simp only [Option.some.injEq, Prod.mk.injEq] at h
        obtain ⟨hx, hb⟩ := h
        subst hx
        subst hb
        refine ⟨fun _ => ?_, fun hb => absurd hb (by decide)⟩
        rw [List.cons_append]
        exact rewriteLoop_hit regexp clock domain path sessionId originalPath r _ hm
      · rw [rewriteLoop_skip regexp clock domain path sessionId originalPath r l hm] at h
        rw [List.cons_append,
          rewriteLoop_skip regexp clock domain path sessionId originalPath r _ hm]
        exact ih h

theorem rewrittenUrl_begins (clock : Nat → Int) (r : UrlRewriteRule)
    (sessionId originalPath : String) :
    ∃ q, rewrittenUrl clock r sessionId originalPath = r.Rewrite.Path ++ q := by
  unfold rewrittenUrl
  simp only []
  split
  · exact ⟨_, rfl⟩
  · exact ⟨"", by simp⟩

/-! ## Claims on panics, appended rules and the request -/

/-- C14 as stated fails.  `AddRule` accepts the nil pointer, and `RewriteUrl`
panics when it reads the trigger of a nil rule: alone in the rewriter, or after
a rule that does not match the request. -/
theorem RewriteUrl_no_failure_counterexample :
    (NewUrlRewriter.AddRule none).RewriteUrl literalRegexp fixedClock
      "example.com" "/old" "sess1" "/old" = none ∧
    ((NewUrlRewriter.AddRule (some loginRule)).AddRule none).RewriteUrl literalRegexp fixedClock
      "example.com" "/old" "sess1" "/old" = none := by
  decide

/-- C14, amended.  For a rewriter obtained from `NewUrlRewriter` by any sequence
of `AddRule` calls none of which passes the nil pointer (the rules themselves
are arbitrary, nothing is validated), and for every domain, path, session id,
original path and query map, `RewriteUrl` returns a string and a flag, and so
does `GetOriginalPath`, which never fails. -/
theorem RewriteUrl_no_failure (regexp : RegexpPkg) (clock : Nat → Int)
    (ps : List (Option UrlRewriteRule)) (domain path sessionId originalPath : String)
    (m : String → Option String) (h : ∀ p ∈ ps, p ≠ none) :
    (∃ res : String × Bool,
      (ps.foldl UrlRewriter.AddRule NewUrlRewriter).RewriteUrl regexp clock
        domain path sessionId originalPath = some res) ∧
    (∃ res : String × Bool,
      (ps.foldl UrlRewriter.AddRule NewUrlRewriter).GetOriginalPath m = res) := by
  constructor
  · unfold UrlRewriter.RewriteUrl
    rw [foldl_AddRule_rules]
    exact rewriteLoop_total regexp clock domain path sessionId originalPath _
      (by simpa [NewUrlRewriter] using h)
  · exact ⟨_, rfl⟩

/-- C14, amended, at a rewriter with a rule whose patterns do not compile, a rule
without patterns and a rule that matches. -/
theorem RewriteUrl_no_failure_witness :
    (∀ p ∈ [some brokenRule, some noPathRule, some oldToNew], p ≠ none) ∧
    (∃ res : String × Bool,
      ([some brokenRule, some noPathRule, some oldToNew].foldl UrlRewriter.AddRule
        NewUrlRewriter).RewriteUrl literalRegexp fixedClock
        "example.com" "/old" "sess1" "/old" = some res) ∧
    (∃ res : String × Bool,
      ([some brokenRule, some noPathRule, some oldToNew].foldl UrlRewriter.AddRule
        NewUrlRewriter).GetOriginalPath otherQuery = res) :=
  ⟨by decide, RewriteUrl_no_failure literalRegexp fixedClock
    [some brokenRule, some noPathRule, some oldToNew] "example.com" "/old" "sess1" "/old"
    otherQuery (by decide)⟩

/-- C16: appending a rule never changes an existing match.  If `RewriteUrl`
returns `(x, b)`: when `b` is true, it returns the same `(x, true)` after
`AddRule`; when `b` is false, `x` is the request path and after `AddRule` the
result is that of the rewriter holding the added rule alone.  `AddRule` on the
rewriter of `rs` gives the rewriter of `rs ++ [r]`. -/
theorem RewriteUrl_append_rule (regexp : RegexpPkg) (clock : Nat → Int)
    (u : UrlRewriter) (p : Option UrlRewriteRule)
    (domain path sessionId originalPath : String) (x : String) (b : Bool)
    (h : u.RewriteUrl regexp clock domain path sessionId originalPath = some (x, b)) :
    (b = true →
      (u.AddRule p).RewriteUrl regexp clock domain path sessionId originalPath =
        some (x, true)) ∧
    (b = false → x = path ∧
      (u.AddRule p).RewriteUrl regexp clock domain path sessionId originalPath =
        (NewUrlRewriter.AddRule p).RewriteUrl regexp clock
          domain path sessionId originalPath) ∧
    (∀ (rs : List UrlRewriteRule) (r : UrlRewriteRule),
      (rewriterOf rs).AddRule (some r) = rewriterOf (rs ++ [r]) ∧
      NewUrlRewriter.AddRule (some r) = rewriterOf [r]) := by
  have key := rewriteLoop_append regexp clock domain path sessionId originalPath
    u.rules [p] x b h
  refine ⟨key.1, key.2, ?_⟩
  intro rs r
  constructor
  · simp [rewriterOf, List.foldl_append]
  · rfl

/-- C16 at the rules `loginRule, oldToNew` followed by `oldToOther`: for the
request `example.com`, `/old` the match of `oldToNew` stays; for
`example.com`, `/older` nothing matched and `oldToOther` decides. -/
theorem RewriteUrl_append_rule_witness :
    (rewriterOf [loginRule, oldToNew]).RewriteUrl literalRegexp fixedClock
      "example.com" "/old" "sess1" "/old" = some ("/new?from=/old", true) ∧
    ((rewriterOf [loginRule, oldToNew]).AddRule (some oldToOther)).RewriteUrl literalRegexp
      fixedClock "example.com" "/old" "sess1" "/old" = some ("/new?from=/old", true) ∧
    (rewriterOf [loginRule, oldToNew]).RewriteUrl literalRegexp fixedClock
      "example.com" "/older" "sess1" "/older" = some ("/older", false) ∧
    ((rewriterOf [loginRule, oldToNew]).AddRule (some oldToOther)).RewriteUrl literalRegexp
        fixedClock "example.com" "/older" "sess1" "/older" =
      (NewUrlRewriter.AddRule (some oldToOther)).RewriteUrl literalRegexp fixedClock
        "example.com" "/older" "sess1" "/older" :=
  have h1 : (rewriterOf [loginRule, oldToNew]).RewriteUrl literalRegexp fixedClock
      "example.com" "/old" "sess1" "/old" = some ("/new?from=/old", true) := by decide
  have h2 : (rewriterOf [loginRule, oldToNew]).RewriteUrl literalRegexp fixedClock
      "example.com" "/older" "sess1" "/older" = some ("/older", false) := by decide
  ⟨h1,
    (RewriteUrl_append_rule literalRegexp fixedClock (rewriterOf [loginRule, oldToNew])
      (some oldToOther) "example.com" "/old" "sess1" "/old" "/new?from=/old" true h1).1 rfl,
    h2,
    ((RewriteUrl_append_rule literalRegexp fixedClock (rewriterOf [loginRule, oldToNew])
      (some oldToOther) "example.com" "/older" "sess1" "/older" "/older" false h2).2.1 rfl).2⟩

/-- C17: a rule with an empty `trigger.domains` list never matches.  Whatever
its `trigger.paths`, and for every domain (the empty string included) and path,
such a rule `R` is passed over: the result is the same with `R` taken out of the
list; and a rewriter that holds only such rules returns `(path, false)`. -/
theorem RewriteUrl_empty_domains (regexp : RegexpPkg) (clock : Nat → Int)
    (pre post rs : List UrlRewriteRule) (R : UrlRewriteRule)
    (domain path sessionId originalPath : String)
    (hR : R.Trigger.Domains = [])
    (hrs : ∀ r ∈ rs, r.Trigger.Domains = []) :
    (rewriterOf (pre ++ R :: post)).RewriteUrl regexp clock domain path sessionId originalPath =
      (rewriterOf (pre ++ post)).RewriteUrl regexp clock domain path sessionId originalPath ∧
    (rewriterOf rs).RewriteUrl regexp clock domain path sessionId originalPath =
      some (path, false) := by
  have key : ∀ r : UrlRewriteRule, r.Trigger.Domains = [] →
      ¬ Matches regexp r domain path := by
    intro r hr hm
    have hd := hm.1
    rw [hr] at hd
    exact absurd hd (List.not_mem_nil domain)
  exact ⟨rewriteUrl_remove regexp clock domain path sessionId originalPath R (key R hR) pre post,
    rewriteUrl_none regexp clock domain path sessionId originalPath rs
      (fun r hr => key r (hrs r hr))⟩

/-- C17 at `noDomainRule`, whose patterns match every path, and the empty
domain. -/
theorem RewriteUrl_empty_domains_witness :
    noDomainRule.Trigger.Domains = [] ∧
    (∀ r ∈ [noDomainRule, noDomainRule], r.Trigger.Domains = []) ∧
    pathMatch literalRegexp noDomainRule.Trigger.Paths "/old" = true ∧
    (rewriterOf ([loginRule] ++ noDomainRule :: [oldToNew])).RewriteUrl literalRegexp fixedClock
        "" "/old" "sess1" "/old" =
      (rewriterOf ([loginRule] ++ [oldToNew])).RewriteUrl literalRegexp fixedClock
        "" "/old" "sess1" "/old" ∧
    (rewriterOf [noDomainRule, noDomainRule]).RewriteUrl literalRegexp fixedClock
        "" "/old" "sess1" "/old" = some ("/old", false) :=
  have h := RewriteUrl_empty_domains literalRegexp fixedClock [loginRule] [oldToNew]
    [noDomainRule, noDomainRule] noDomainRule "" "/old" "sess1" "/old" (by decide) (by decide)
  ⟨by decide, by decide, by decide, h.1, h.2⟩

/-- C18: on a match the output does not depend on the request beyond the
matching decision.  For two requests whose first matching rule in the list is
the same rule `r`, with the same session id, original path and clock,
`RewriteUrl` returns the same `(u, true)`, and `u` begins with the
`rewrite.path` of `r`. -/
theorem RewriteUrl_request_independent (regexp : RegexpPkg) (clock : Nat → Int)
    (rs pre1 post1 pre2 post2 : List UrlRewriteRule) (r : UrlRewriteRule)
    (domain1 path1 domain2 path2 sessionId originalPath : String)
    (e1 : rs = pre1 ++ r :: post1)
    (h1 : ∀ r' ∈ pre1, ¬ Matches regexp r' domain1 path1)
    (m1 : Matches regexp r domain1 path1)
    (e2 : rs = pre2 ++ r :: post2)
    (h2 : ∀ r' ∈ pre2, ¬ Matches regexp r' domain2 path2)
    (m2 : Matches regexp r domain2 path2) :
    ∃ u q, u = r.Rewrite.Path ++ q ∧
      (rewriterOf rs).RewriteUrl regexp clock domain1 path1 sessionId originalPath =
        some (u, true) ∧
      (rewriterOf rs).RewriteUrl regexp clock domain2 path2 sessionId originalPath =
        some (u, true) := by
  obtain ⟨q, hq⟩ := rewrittenUrl_begins clock r sessionId originalPath
  refine ⟨rewrittenUrl clock r sessionId originalPath, q, hq, ?_, ?_⟩
  · rw [e1]
    exact rewriteUrl_first regexp clock domain1 path1 sessionId originalPath pre1 r post1 h1 m1
  · rw [e2]
    exact rewriteUrl_first regexp clock domain2 path2 sessionId originalPath pre2 r post2 h2 m2

/-- C18 at the rule `oldToOther`, first match of the requests `example.org`,
`/old` and `example.com`, `/x/old/y`. -/
theorem RewriteUrl_request_independent_witness :
    [oldToNew, oldToOther] = [oldToNew] ++ oldToOther :: [] ∧
    (∀ r' ∈ [oldToNew], ¬ Matches literalRegexp r' "example.org" "/old") ∧
    Matches literalRegexp oldToOther "example.org" "/old" ∧
    (∀ r' ∈ [oldToNew], ¬ Matches literalRegexp r' "example.com" "/x/old/y") ∧
    Matches literalRegexp oldToOther "example.com" "/x/old/y" ∧
    ∃ u q, u = oldToOther.Rewrite.Path ++ q ∧
      (rewriterOf [oldToNew, oldToOther]).RewriteUrl literalRegexp fixedClock
        "example.org" "/old" "sess1" "/old" = some (u, true) ∧
      (rewriterOf [oldToNew, oldToOther]).RewriteUrl literalRegexp fixedClock
        "example.com" "/x/old/y" "sess1" "/old" = some (u, true) :=
  ⟨rfl, by decide, by decide, by decide, by decide,
    RewriteUrl_request_independent literalRegexp fixedClock [oldToNew, oldToOther]
      [oldToNew] [] [oldToNew] [] oldToOther "example.org" "/old" "example.com" "/x/old/y"
      "sess1" "/old" rfl (by decide) (by decide) rfl (by decide) (by decide)⟩

/-! ## Lemmas on templates without `{timestamp}` -/

theorem tok_infix (k : Placeholder) (ps : List Piece) (h : Piece.tok k ∈ ps) :
    k.text <:+: expand Placeholder.text ps := by
  induction ps with
  | nil => exact absurd h (List.not_mem_nil _)
  | cons p ps ih =>
    rcases List.mem_cons.mp h with h0 | h0
    · subst h0
      exact (List.prefix_append _ _).isInfix
    · have hi := ih h0
      cases p with
      | lit c => exact List.infix_cons hi
      | tok j => exact hi.trans (List.suffix_append _ _).isInfix

theorem expand_congr (f g : Placeholder → List Char) (ps : List Piece)
    (h : ∀ k, Piece.tok k ∈ ps → f k = g k) : expand f ps = expand g ps := by
  induction ps with
  | nil => rfl
  | cons p ps ih =>
    have ih := ih (fun k hk => h k (List.mem_cons_of_mem _ hk))
    cases p with
    | lit c => simp only [expand, ih]
    | tok j => simp only [expand, ih, h j (List.mem_cons_self _ _)]

/-- The four successive replacements on a template cut into pieces, none of
which is `{timestamp}`: the time string plays no part. -/
theorem substitute_expand_noTimestamp (sid op ts : List Char) (ps : List Piece)
    (hps : Plain ps) (hts : Piece.tok .timestamp ∉ ps)
    (hs : ∀ c ∈ sid, c ≠ '{') (ho : ∀ c ∈ op, c ≠ '{') :
    replaceFrom Placeholder.id.text sid 0
        (replaceFrom Placeholder.timestamp.text ts 0
          (replaceFrom Placeholder.original_path.text op 0
            (replaceFrom Placeholder.session_id.text sid 0 (expand Placeholder.text ps)))) =
      expand (finalText sid op []) ps := by
  rw [replaceFrom_expand .session_id sid Placeholder.text ps hps rfl (fun j _ => Or.inl rfl)]
  rw [replaceFrom_expand .original_path op _ ps hps (by simp [Function.update])
    (by
      intro j hj
      cases j
      · exact Or.inr (by simpa [Function.update] using hs)
      · exact absurd rfl hj
      · exact Or.inl (by simp [Function.update])
      · exact Or.inl (by simp [Function.update]))]
  rw [replaceFrom_expand .timestamp ts _ ps hps (by simp [Function.update])
    (by
      intro j hj
      cases j
      · exact Or.inr (by simpa [Function.update] using hs)
      · exact Or.inr (by simpa [Function.update] using ho)
      · exact absurd rfl hj
      · exact Or.inl (by simp [Function.update]))]
  rw [expand_congr _
    (Function.update (Function.update Placeholder.text .session_id sid) .original_path op) ps
    (by
      intro k hk
      cases k
      · simp [Function.update]
      · simp [Function.update]
      · exact absurd hk hts
      · simp [Function.update])]
  rw [replaceFrom_expand .id sid _ ps hps (by simp [Function.update])
    (by
      intro j hj
      cases j
      · exact Or.inr (by simpa [Function.update] using hs)
      · exact Or.inr (by simpa [Function.update] using ho)
      · exact Or.inl (by simp [Function.update])
      · exact absurd rfl hj)]
  apply expand_congr
  intro k hk
  cases k
  · simp [Function.update, finalText]
  · simp [Function.update, finalText]
  · exact absurd hk hts
  · simp [Function.update, finalText]

/-- On a well braced template without `{timestamp}`, with a session id and an
original path without an opening brace, the value does not depend on the clock. -/
theorem substitute_clock (value sessionId originalPath : String) (t1 t2 : Int)
    (hv : wellBraced value.data = true) (hn : ¬ "{timestamp}".data <:+: value.data)
    (hs : '{' ∉ sessionId.data) (ho : '{' ∉ originalPath.data) :
    substitute value sessionId originalPath t1 = substitute value sessionId originalPath t2 := by
  obtain ⟨ps, hps, hx⟩ := exists_pieces value.data.length value.data (Nat.le_refl _) hv
  have hts : Piece.tok .timestamp ∉ ps := by
    intro hmem
    have := tok_infix .timestamp ps hmem
    rw [hx] at this
    exact hn this
  apply String.ext
  rw [substitute_data, substitute_data, ← hx,
    substitute_expand_noTimestamp _ _ _ ps hps hts (fun c hc e => hs (e ▸ hc))
      (fun c hc e => ho (e ▸ hc)),
    substitute_expand_noTimestamp _ _ _ ps hps hts (fun c hc e => hs (e ▸ hc))
      (fun c hc e => ho (e ▸ hc))]

theorem buildQueryParams_clock (clock1 clock2 : Nat → Int) (sessionId originalPath : String)
    (hs : '{' ∉ sessionId.data) (ho : '{' ∉ originalPath.data)
    (params : List UrlRewriteQuery)
    (hv : ∀ q ∈ params, wellBraced q.Value.data = true ∧
      ¬ "{timestamp}".data <:+: q.Value.data)
    (k : Nat) (acc : List String) :
    buildQueryParams clock1 sessionId originalPath params k acc =
      buildQueryParams clock2 sessionId originalPath params k acc := by
  induction params generalizing k acc with
  | nil => rfl
  | cons q qs ih =>
    have hq := hv q (List.mem_cons_self _ _)
    simp only [buildQueryParams]
    rw [substitute_clock q.Value sessionId originalPath (clock1 k) (clock2 k) hq.1 hq.2 hs ho]
    exact ih (fun q' h' => hv q' (List.mem_cons_of_mem _ h')) _ _

theorem rewriteLoop_clock (regexp : RegexpPkg) (clock1 clock2 : Nat → Int)
    (domain path sessionId originalPath : String)
    (hs : '{' ∉ sessionId.data) (ho : '{' ∉ originalPath.data)
    (rs : List UrlRewriteRule)
    (hv : ∀ r ∈ rs, Matches regexp r domain path → ∀ q ∈ r.Rewrite.QueryParams,
      wellBraced q.Value.data = true ∧ ¬ "{timestamp}".data <:+: q.Value.data) :
    rewriteLoop regexp clock1 domain path sessionId originalPath (rs.map some) =
      rewriteLoop regexp clock2 domain path sessionId originalPath (rs.map some) := by
  induction rs with
  | nil => rfl
  | cons r rs ih =>
    have ih := ih (fun r' h' => hv r' (List.mem_cons_of_mem _ h'))
    simp only [List.map_cons]
    by_cases hm : Matches regexp r domain path
    · rw [rewriteLoop_hit regexp clock1 domain path sessionId originalPath r _ hm,
        rewriteLoop_hit regexp clock2 domain path sessionId originalPath r _ hm]
      have e : rewrittenUrl clock1 r sessionId originalPath =
          rewrittenUrl clock2 r sessionId originalPath := by
        unfold rewrittenUrl
        simp only []
        rw [buildQueryParams_clock clock1 clock2 sessionId originalPath hs ho _
          (hv r (List.mem_cons_self _ _) hm)]
      rw [e]
    · rw [rewriteLoop_skip regexp clock1 domain path sessionId originalPath r _ hm,
        rewriteLoop_skip regexp clock2 domain path sessionId originalPath r _ hm]
      exact ih

/-! ## Claim on the clock -/

/-- C15 as stated fails.  The template `{session_id}` does not contain
`{timestamp}`, yet with the session id `{timestamp}` the result is `v=A` at the
clock reading 65 and `v=B` at 66; so it is for the template `{original_path}`
with the original path `{timestamp}`, and for the template
`{time{session_id}stamp}` with an empty session id. -/
theorem RewriteUrl_clock_counterexample :
    (¬ "{timestamp}".data <:+: "{session_id}".data ∧
      (rewriterOf [templateRule "{session_id}"]).RewriteUrl literalRegexp (fun _ => 65)
        "example.com" "/old" "{timestamp}" "/old" = some ("/new?v=A", true) ∧
      (rewriterOf [templateRule "{session_id}"]).RewriteUrl literalRegexp (fun _ => 66)
        "example.com" "/old" "{timestamp}" "/old" = some ("/new?v=B", true)) ∧
    (¬ "{timestamp}".data <:+: "{original_path}".data ∧
      (rewriterOf [templateRule "{original_path}"]).RewriteUrl literalRegexp (fun _ => 65)
        "example.com" "/old" "abc" "{timestamp}" = some ("/new?v=A", true) ∧
      (rewriterOf [templateRule "{original_path}"]).RewriteUrl literalRegexp (fun _ => 66)
        "example.com" "/old" "abc" "{timestamp}" = some ("/new?v=B", true)) ∧
    (¬ "{timestamp}".data <:+: "{time{session_id}stamp}".data ∧
      (rewriterOf [templateRule "{time{session_id}stamp}"]).RewriteUrl literalRegexp
        (fun _ => 65) "example.com" "/old" "" "/old" = some ("/new?v=A", true) ∧
      (rewriterOf [templateRule "{time{session_id}stamp}"]).RewriteUrl literalRegexp
        (fun _ => 66) "example.com" "/old" "" "/old" = some ("/new?v=B", true)) := by
  decide

/-- C15, amended.  For a session id and an original path without `{`, and a rule
list in which the value templates of the rules matching the request do not
contain `{timestamp}` and have every `{` at the start of one of the four
placeholders, `RewriteUrl` returns the same result with any two clocks. -/
theorem RewriteUrl_clock_independent (regexp : RegexpPkg) (clock1 clock2 : Nat → Int)
    (rs : List UrlRewriteRule) (domain path sessionId originalPath : String)
    (hv : ∀ r ∈ rs, Matches regexp r domain path → ∀ q ∈ r.Rewrite.QueryParams,
      wellBraced q.Value.data = true ∧ ¬ "{timestamp}".data <:+: q.Value.data)
    (hs : '{' ∉ sessionId.data) (ho : '{' ∉ originalPath.data) :
    (rewriterOf rs).RewriteUrl regexp clock1 domain path sessionId originalPath =
      (rewriterOf rs).RewriteUrl regexp clock2 domain path sessionId originalPath := by
  unfold UrlRewriter.RewriteUrl
  rw [rewriterOf_rules]
  exact rewriteLoop_clock regexp clock1 clock2 domain path sessionId originalPath hs ho rs hv

/-- C15, amended, at the rules `loginRule, aliasRule` and the clocks that stand
at 65 and at 1700000000. -/
theorem RewriteUrl_clock_independent_witness :
    (∀ r ∈ [loginRule, aliasRule], Matches literalRegexp r "example.com" "/old" →
      ∀ q ∈ r.Rewrite.QueryParams,
        wellBraced q.Value.data = true ∧ ¬ "{timestamp}".data <:+: q.Value.data) ∧
    '{' ∉ "abc".data ∧ '{' ∉ "/old".data ∧
    (rewriterOf [loginRule, aliasRule]).RewriteUrl literalRegexp (fun _ => 65)
        "example.com" "/old" "abc" "/old" =
      (rewriterOf [loginRule, aliasRule]).RewriteUrl literalRegexp fixedClock
        "example.com" "/old" "abc" "/old" :=
  ⟨by decide, by decide, by decide,
    RewriteUrl_clock_independent literalRegexp (fun _ => 65) fixedClock [loginRule, aliasRule]
      "example.com" "/old" "abc" "/old" (by decide) (by decide) (by decide)⟩

end core
